import Mathlib

/-!
# Receipt processor: the points calculator and the store of `main.go`

A shallow embedding of `calculatePoints` together with the library
functions it calls (`strconv.ParseFloat`, `strconv.Atoi`, `strings.Split`,
`strings.TrimSpace`, `regexp.FindAllString`, `math.Mod`, `math.Ceil` and the
numeric conversions) and of the part of the two handlers that works on the
map `receipts`, followed by the theorems about them.

Conventions of the embedding.

* A Go `string` that came out of the JSON decoder is valid UTF-8, so it is a
  Lean `String`; the library functions work on its list of characters.
* Go's `int` is the 64-bit two's-complement integer; every `+=` wraps.
* A `float64` is `NaN`, an infinity, or a finite value counted in units of
  `2^-1074` (the smallest subnormal), of which every finite double is an
  integer multiple.  The two zeros are identified: nothing in `main.go`
  distinguishes them.
* An index out of range is a run-time panic: `calculatePoints` returns
  `none`.
* The result of converting a `float64` that is out of the range of `int` is
  implementation-dependent in Go; it is the parameter `oor`.
* The handlers hold the mutex around every access to the map, so requests
  are handled one after the other on an explicit store; the identifier that
  `uuid.New()` draws is an input of the registration. The method check and
  the JSON coding of the handlers are not modelled.
-/

namespace ReceiptProcessor

/-! ## Machine integers -/

/-- Two's-complement wrap of an integer into the range of the 64-bit `int`. -/
def wrap64 (x : Int) : Int := (x + 2 ^ 63) % 2 ^ 64 - 2 ^ 63

/-! ## float64 -/

/-- The number of units of `2^-1074` in `1.0`. -/
def unit : Nat := 2 ^ 1074

/-- The first magnitude, in units, that is too large for a finite double
(`2^1024`). -/
def overflowUnits : Nat := 2 ^ 2098

/-- A `float64`: `fin n` is the finite value `n * 2^-1074`. -/
inductive F64 where
  | nan : F64
  | inf (neg : Bool) : F64
  | fin (n : Int) : F64
  deriving DecidableEq

/-- Go's `==` on `float64`: `NaN` equals nothing. -/
def F64.eq : F64 → F64 → Bool
  | .fin a, .fin b => decide (a = b)
  | .inf a, .inf b => decide (a = b)
  | _, _ => false

/-- Quotient `a / b` rounded to the nearest integer, ties to the even one. -/
def roundHalfEven (a b : Nat) : Nat :=
  if 2 * (a % b) < b then a / b
  else if b < 2 * (a % b) then a / b + 1
  else if a / b % 2 = 0 then a / b
  else a / b + 1

/-- The exponent of the spacing of the doubles around a magnitude of `q`
units: `0` below `2^53` units (subnormals and the first normal binade),
otherwise the `s` with `2^(52+s) ≤ q < 2^(53+s)`. -/
def binadeShift : Nat → Nat → Nat
  | 0, _ => 0
  | fuel + 1, q => if q < 2 ^ 53 then 0 else binadeShift fuel (q / 2) + 1

/-- The magnitude `num / den`, in units, rounded to the grid of the doubles
(53 significant bits, round to nearest, ties to even); the result is not yet
checked for overflow. -/
def roundUnits (num den : Nat) : Nat :=
  let s := binadeShift 2100 (num * unit / den)
  roundHalfEven (num * unit) (den * 2 ^ s) * 2 ^ s

/-- The double nearest to `± num / den`, an infinity when it overflows. -/
def roundF64 (neg : Bool) (num den : Nat) : F64 :=
  if overflowUnits ≤ num * unit / den then .inf neg
  else if overflowUnits ≤ roundUnits num den then .inf neg
  else .fin (if neg then -(roundUnits num den : Int) else (roundUnits num den : Int))

/-- The conversion `float64(i)` of an `int`. -/
def intToF64 (i : Int) : F64 := roundF64 (decide (i < 0)) i.natAbs 1

/-- The conversion `int(x)` where Go defines it: truncation toward zero of a
finite value whose truncation fits in 64 bits. -/
def f64ToIntDefined : F64 → Option Int
  | .fin n =>
    if -(2 ^ 63 : Int) ≤ n.tdiv unit ∧ n.tdiv unit < 2 ^ 63 then some (n.tdiv unit) else none
  | _ => none

/-- The conversion `int(x)`; `oor` gives the implementation-dependent result
for a value that does not fit. -/
def f64ToInt (oor : F64 → Int) (x : F64) : Int :=
  match f64ToIntDefined x with
  | some t => t
  | none => wrap64 (oor x)

/-- Float multiplication `x * y`, correctly rounded. -/
def F64.mul : F64 → F64 → F64
  | .nan, _ => .nan
  | _, .nan => .nan
  | .inf a, .inf b => .inf (a != b)
  | .inf a, .fin n => if n = 0 then .nan else .inf (a != decide (n < 0))
  | .fin n, .inf b => if n = 0 then .nan else .inf (decide (n < 0) != b)
  | .fin a, .fin b => roundF64 (decide (a * b < 0)) (a * b).natAbs (unit * unit)

/-- The function `math.Mod(x, y)`: the remainder has the sign of `x` and is
exact. -/
def F64.mod : F64 → F64 → F64
  | .nan, _ => .nan
  | _, .nan => .nan
  | .inf _, _ => .nan
  | .fin a, .inf _ => .fin a
  | .fin a, .fin b => if b = 0 then .nan else .fin (a.tmod b)

/-- The function `math.Ceil(x)`. -/
def F64.ceil : F64 → F64
  | .fin n => .fin (-((-n) / (unit : Int)) * unit)
  | x => x

/-- The constant `0.25` as a `float64`. -/
def quarter : F64 := roundF64 false 1 4

/-- The constant `0.2` as a `float64`. -/
def fifth : F64 := roundF64 false 1 5

/-! ## strconv -/

/-- The two errors of `strconv`: malformed text and a value out of range. -/
inductive NumErr where
  | malformed : NumErr
  | outOfRange : NumErr
  deriving DecidableEq

/-- Value of a decimal digit character. -/
def decDigit (c : Char) : Option Nat :=
  if '0' ≤ c ∧ c ≤ '9' then some (c.toNat - 48) else none

/-- Value of a hexadecimal digit character, either case. -/
def hexDigit (c : Char) : Option Nat :=
  if '0' ≤ c ∧ c ≤ '9' then some (c.toNat - 48)
  else if 'a' ≤ c ∧ c ≤ 'f' then some (c.toNat - 87)
  else if 'A' ≤ c ∧ c ≤ 'F' then some (c.toNat - 55)
  else none

/-- The digit loop of `strconv.ParseUint(s, 10, 64)`: a non-digit is a
malformed number (value 0); an overflow of 64 bits stops the loop at once
with the largest value. -/
def parseUintLoop : Nat → List Char → Nat × Option NumErr
  | n, [] => (n, none)
  | n, c :: cs =>
    match decDigit c with
    | none => (0, some .malformed)
    | some d =>
      if (2 ^ 64 - 1) / 10 + 1 ≤ n then (2 ^ 64 - 1, some .outOfRange)
      else if 2 ^ 64 - 1 < n * 10 + d then (2 ^ 64 - 1, some .outOfRange)
      else parseUintLoop (n * 10 + d) cs

/-- The function `strconv.ParseUint(s, 10, 64)`. -/
def ParseUint (s : List Char) : Nat × Option NumErr :=
  match s with
  | [] => (0, some .malformed)
  | _ => parseUintLoop 0 s

/-- The function `strconv.ParseInt(s, 10, 0)` on a 64-bit platform: an
optional sign, then `ParseUint`; a magnitude that does not fit is clamped. -/
def ParseInt (s : List Char) : Int × Option NumErr :=
  match s with
  | [] => (0, some .malformed)
  | c :: cs =>
    let neg := decide (c = '-')
    let body := if c = '+' ∨ c = '-' then cs else c :: cs
    match ParseUint body with
    | (_, some .malformed) => (0, some .malformed)
    | (un, _) =>
      if !neg ∧ 2 ^ 63 ≤ un then (2 ^ 63 - 1, some .outOfRange)
      else if neg ∧ 2 ^ 63 < un then (-(2 ^ 63), some .outOfRange)
      else (if neg then -(un : Int) else (un : Int), none)

/-- The function `strconv.Atoi`; its fast path for short strings computes
what `ParseInt(s, 10, 0)` computes. -/
def Atoi (s : List Char) : Int × Option NumErr := ParseInt s

/-- ASCII lower-casing of one character, as in `commonPrefixLenIgnoreCase`. -/
def asciiLower (c : Char) : Char :=
  if 'A' ≤ c ∧ c ≤ 'Z' then Char.ofNat (c.toNat + 32) else c

/-- Length of the longest common beginning of `s` (lower-cased) and `p`. -/
def commonPrefixLenIgnoreCase : List Char → List Char → Nat
  | c :: cs, p :: ps => if asciiLower c = p then commonPrefixLenIgnoreCase cs ps + 1 else 0
  | _, _ => 0

/-- The function `special` of `strconv`: an infinity or a NaN written out,
with the number of characters it takes. -/
def special (s : List Char) : Option (F64 × Nat) :=
  match s with
  | [] => none
  | c :: cs =>
    if c = '+' ∨ c = '-' then
      let n := commonPrefixLenIgnoreCase cs "infinity".data
      let n := if 3 < n ∧ n < 8 then 3 else n
      if n = 3 ∨ n = 8 then some (.inf (decide (c = '-')), 1 + n) else none
    else if c = 'i' ∨ c = 'I' then
      let n := commonPrefixLenIgnoreCase (c :: cs) "infinity".data
      let n := if 3 < n ∧ n < 8 then 3 else n
      if n = 3 ∨ n = 8 then some (.inf false, n) else none
    else if c = 'n' ∨ c = 'N' then
      if commonPrefixLenIgnoreCase (c :: cs) "nan".data = 3 then some (.nan, 3) else none
    else none

/-- What the mantissa loop of `readFloat` has seen so far: all digits as one
number, and how many of them came after the point. -/
structure Mantissa where
  sawdot : Bool
  sawdigits : Bool
  mant : Nat
  frac : Nat
  underscores : Bool

/-- The mantissa loop of `readFloat`: digits, at most one point, underscores;
it stops at the first other character and returns the rest. -/
def readDigits (hex : Bool) : Mantissa → List Char → Mantissa × List Char
  | st, [] => (st, [])
  | st, c :: cs =>
    if c = '_' then readDigits hex { st with underscores := true } cs
    else if c = '.' then
      if st.sawdot then (st, c :: cs) else readDigits hex { st with sawdot := true } cs
    else
      match (if hex then hexDigit c else decDigit c) with
      | some d =>
        readDigits hex
          { st with
            sawdigits := true
            mant := st.mant * (if hex then 16 else 10) + d
            frac := if st.sawdot then st.frac + 1 else st.frac } cs
      | none => (st, c :: cs)

/-- The exponent loop of `readFloat`: decimal digits and underscores; the
exponent stops growing at 10000. -/
def readExp : Nat → Bool → List Char → Nat × Bool × List Char
  | e, u, [] => (e, u, [])
  | e, u, c :: cs =>
    if c = '_' then readExp e true cs
    else
      match decDigit c with
      | some d => readExp (if e < 10000 then e * 10 + d else e) u cs
      | none => (e, u, c :: cs)

/-- The state of `underscoreOK`: the kind of the last character seen. -/
inductive Saw where
  | start : Saw
  | digit : Saw
  | underscore : Saw
  | other : Saw
  deriving DecidableEq

/-- The loop of `underscoreOK`: an underscore must follow a digit (or the
base marker) and be followed by a digit. -/
def underscoreLoop (hex : Bool) : Saw → List Char → Bool
  | saw, [] => decide (saw ≠ .underscore)
  | saw, c :: cs =>
    if ('0' ≤ c ∧ c ≤ '9') ∨ (hex ∧ (hexDigit c).isSome) then underscoreLoop hex .digit cs
    else if c = '_' then
      if saw ≠ .digit then false else underscoreLoop hex .underscore cs
    else if saw = .underscore then false
    else underscoreLoop hex .other cs

/-- The function `underscoreOK` of `strconv`. -/
def underscoreOK (s : List Char) : Bool :=
  let s1 := match s with
    | c :: cs => if c = '-' ∨ c = '+' then cs else c :: cs
    | [] => []
  match s1 with
  | '0' :: x :: cs =>
    if x = 'b' ∨ x = 'B' ∨ x = 'o' ∨ x = 'O' ∨ x = 'x' ∨ x = 'X' then
      underscoreLoop (decide (x = 'x' ∨ x = 'X')) .digit cs
    else underscoreLoop false .start s1
  | _ => underscoreLoop false .start s1

/-- A floating-point literal read in full: sign, base, mantissa digits as a
number, and the power of the base (10, or 2 for a hexadecimal literal) that
scales it. -/
structure FloatLit where
  neg : Bool
  hex : Bool
  mant : Nat
  exp : Int

/-- The tail of `readFloat` after the exponent: the whole string must have
been read and its underscores must be well placed. -/
def finishFloat (s : List Char) (neg hex : Bool) (m : Mantissa) (u : Bool) (e : Int)
    (rest : List Char) : Option FloatLit :=
  if rest ≠ [] then none
  else if (m.underscores ∨ u) ∧ ¬ underscoreOK s then none
  else some { neg := neg, hex := hex, mant := m.mant,
              exp := if hex then e - 4 * m.frac else e - m.frac }

/-- The function `readFloat` of `strconv` followed by the test of
`ParseFloat` that nothing is left over; `none` is a malformed number. The
mantissa keeps all its digits (Go keeps 19 and a flag, and rounds as if it
had kept all). -/
def readFloat (s : List Char) : Option FloatLit :=
  -- optional sign
  let neg := decide (s.head? = some '-')
  let s1 := if s.head? = some '+' ∨ s.head? = some '-' then s.tail else s
  -- base marker: `i+2 < len(s) && s[i] == '0' && lower(s[i+1]) == 'x'`
  let hex := decide (2 < s1.length ∧ s1.head? = some '0' ∧
    (s1[1]? = some 'x' ∨ s1[1]? = some 'X'))
  let s2 := if hex then s1.drop 2 else s1
  let rd := readDigits hex ⟨false, false, 0, 0, false⟩ s2
  if ¬ rd.1.sawdigits then none
  else if (¬ hex ∧ (rd.2.head? = some 'e' ∨ rd.2.head? = some 'E')) ∨
      (hex ∧ (rd.2.head? = some 'p' ∨ rd.2.head? = some 'P')) then
    -- optional exponent
    let t := rd.2.tail
    if t = [] then none
    else
      let esign : Int := if t.head? = some '-' then -1 else 1
      let t1 := if t.head? = some '+' ∨ t.head? = some '-' then t.tail else t
      if (t1.head?.bind decDigit).isSome then
        let re := readExp 0 false t1
        finishFloat s neg hex rd.1 re.2.1 (re.1 * esign) re.2.2
      else none
  else if hex then none
  else finishFloat s neg hex rd.1 false 0 rd.2

/-- The value of a literal as a `float64`, with the range error of an
overflow. -/
def FloatLit.toF64 (l : FloatLit) : F64 × Option NumErr :=
  let b : Nat := if l.hex then 2 else 10
  let x :=
    if 0 ≤ l.exp then roundF64 l.neg (l.mant * b ^ l.exp.toNat) 1
    else roundF64 l.neg l.mant (b ^ (-l.exp).toNat)
  match x with
  | .inf neg => (.inf neg, some .outOfRange)
  | x => (x, none)

/-- The function `strconv.ParseFloat(s, 64)`: the nearest double to the
number written in `s`; `0` with an error for a malformed number, an infinity
with an error for one out of range. -/
def ParseFloat (s : List Char) : F64 × Option NumErr :=
  match special s with
  | some (x, n) => if n = s.length then (x, none) else (.fin 0, some .malformed)
  | none =>
    match readFloat s with
    | none => (.fin 0, some .malformed)
    | some l => l.toF64

/-! ## strings and regexp -/

/-- The function `strings.Split(s, sep)` for a separator of one character. -/
def stringsSplit (sep : Char) : List Char → List (List Char)
  | [] => [[]]
  | c :: cs =>
    if c = sep then [] :: stringsSplit sep cs
    else
      match stringsSplit sep cs with
      | [] => [[c]]
      | f :: fs => (c :: f) :: fs

/-- The predicate `unicode.IsSpace`. -/
def isSpace (c : Char) : Bool :=
  c = '\t' ∨ c = '\n' ∨ c.toNat = 0x0B ∨ c.toNat = 0x0C ∨ c = '\r' ∨ c = ' ' ∨
  c.toNat = 0x85 ∨ c.toNat = 0xA0 ∨ c.toNat = 0x1680 ∨
  (0x2000 ≤ c.toNat ∧ c.toNat ≤ 0x200A) ∨ c.toNat = 0x2028 ∨ c.toNat = 0x2029 ∨
  c.toNat = 0x202F ∨ c.toNat = 0x205F ∨ c.toNat = 0x3000

/-- The function `strings.TrimSpace`. -/
def TrimSpace (s : List Char) : List Char :=
  ((s.dropWhile isSpace).reverse.dropWhile isSpace).reverse

/-- The builtin `len` of a string: its number of bytes in UTF-8. -/
def len (s : List Char) : Nat := (s.map Char.utf8Size).sum

/-- The character class `[a-zA-Z0-9]`. -/
def alnumClass (c : Char) : Bool :=
  ('a' ≤ c ∧ c ≤ 'z') ∨ ('A' ≤ c ∧ c ≤ 'Z') ∨ ('0' ≤ c ∧ c ≤ '9')

/-- The call `FindAllString(s, -1)` of a regular expression that is one
character class: the successive matches, each one character long. -/
def FindAllString (cls : Char → Bool) : List Char → List (List Char)
  | [] => []
  | c :: cs => if cls c then [c] :: FindAllString cls cs else FindAllString cls cs

/-! ## The receipt and its points -/

/-- An item of a receipt, as decoded from JSON. -/
structure Item where
  ShortDescription : String
  Price : String

/-- A receipt, as decoded from JSON. -/
structure Receipt where
  Retailer : String
  PurchaseDate : String
  PurchaseTime : String
  Total : String
  Items : List Item

/-- One turn of the loop of rule 5 in `calculatePoints`. -/
def itemStep (oor : F64 → Int) (points : Int) (item : Item) : Int :=
  let descLen : Int := len (TrimSpace item.ShortDescription.data)
  if descLen.tmod 3 = 0 then
    let price := (ParseFloat item.Price.data).1
    wrap64 (points + f64ToInt oor (F64.ceil (F64.mul price fifth)))
  else points

/-- The function `calculatePoints` of `main.go`; `none` is the panic of an
index out of range. -/
def calculatePoints (oor : F64 → Int) (receipt : Receipt) : Option Int :=
  let points : Int := 0
  -- Rule 1
  let points := wrap64 (points + (FindAllString alnumClass receipt.Retailer.data).length)
  -- Rule 2
  let total := (ParseFloat receipt.Total.data).1
  let points :=
    if F64.eq total (intToF64 (f64ToInt oor total)) then wrap64 (points + 50) else points
  -- Rule 3
  let points :=
    if F64.eq (F64.mod total quarter) (.fin 0) then wrap64 (points + 25) else points
  -- Rule 4
  let points := wrap64 (points + ((receipt.Items.length / 2 : Nat) : Int) * 5)
  -- Rule 5
  let points := receipt.Items.foldl (itemStep oor) points
  -- Rule 6
  match (stringsSplit '-' receipt.PurchaseDate.data)[2]? with
  | none => none
  | some dayField =>
    let day := (Atoi dayField).1
    let points := if day.tmod 2 ≠ 0 then wrap64 (points + 6) else points
    -- Rule 7
    let timeParts := stringsSplit ':' receipt.PurchaseTime.data
    match timeParts[0]? with
    | none => none
    | some hourField =>
      let hour := (Atoi hourField).1
      match timeParts[1]? with
      | none => none
      | some minuteField =>
        let minute := (Atoi minuteField).1
        let points :=
          if hour = 14 ∨ (hour = 15 ∧ minute < 60) then wrap64 (points + 10) else points
        some points

/-- The receipt of scenario A. -/
def scenarioA : Receipt :=
  { Retailer := "Target", PurchaseDate := "2022-03-02", PurchaseTime := "13:01",
    Total := "10.00", Items := [⟨"abc", "3.00"⟩, ⟨"abcdef", "6.00"⟩] }

/-- The receipt of scenario B: scenario A on another day and hour. -/
def scenarioB : Receipt :=
  { scenarioA with PurchaseDate := "2022-03-15", PurchaseTime := "14:00" }

/-! ## The seven rules, one by one

Each definition below is the amount that one rule of `calculatePoints` adds
to `points`, as a function of the field the rule reads.
`calculatePoints_eq_rules` shows that `calculatePoints` is their wrapped sum. -/

/-- Rule 1 (lines 97-98): the number of matches of `[a-zA-Z0-9]`. -/
def rule1 (retailer : String) : Int :=
  (FindAllString alnumClass retailer.data).length

/-- Rule 2 (lines 100-104): 50 when the parsed total equals its conversion to
`int` and back. -/
def rule2 (oor : F64 → Int) (total : String) : Int :=
  if F64.eq (ParseFloat total.data).1 (intToF64 (f64ToInt oor (ParseFloat total.data).1))
  then 50 else 0

/-- Rule 3 (lines 106-109): 25 when `math.Mod(total, 0.25) == 0`. -/
def rule3 (total : String) : Int :=
  if F64.eq (F64.mod (ParseFloat total.data).1 quarter) (.fin 0) then 25 else 0

/-- Rule 4 (lines 111-112): 5 for every two items. -/
def rule4 (items : List Item) : Int := ((items.length / 2 : Nat) : Int) * 5

/-- Whether an item takes part in rule 5 (line 117): the length of its
trimmed description is a multiple of 3. -/
def qualifies (item : Item) : Bool :=
  decide (((len (TrimSpace item.ShortDescription.data) : Nat) : Int).tmod 3 = 0)

/-- The `float64` that rule 5 converts to `int` for an item (line 119):
`math.Ceil(price * 0.2)`. -/
def itemBonus (item : Item) : F64 :=
  F64.ceil (F64.mul (ParseFloat item.Price.data).1 fifth)

/-- Rule 5 (lines 114-121): the bonuses of the items that take part. -/
def rule5 (oor : F64 → Int) (items : List Item) : Int :=
  ((items.filter qualifies).map fun item => f64ToInt oor (itemBonus item)).sum

/-- Rule 6 (lines 123-127): 6 when the third field of the date is an odd
number; `none` when there is no third field. -/
def rule6 (purchaseDate : String) : Option Int :=
  match (stringsSplit '-' purchaseDate.data)[2]? with
  | none => none
  | some dayField => some (if (Atoi dayField).1.tmod 2 ≠ 0 then 6 else 0)

/-- Rule 7 (lines 129-135): 10 when the hour is 14, or 15 with a minute below
60; `none` when the time has fewer than two fields. -/
def rule7 (purchaseTime : String) : Option Int :=
  match (stringsSplit ':' purchaseTime.data)[0]? with
  | none => none
  | some hourField =>
    match (stringsSplit ':' purchaseTime.data)[1]? with
    | none => none
    | some minuteField =>
      some (if (Atoi hourField).1 = 14 ∨ ((Atoi hourField).1 = 15 ∧ (Atoi minuteField).1 < 60)
            then 10 else 0)

/-- Every conversion `int(x)` that `calculatePoints` performs on the receipt
is one that Go defines. -/
def conversionsDefined (r : Receipt) : Bool :=
  (f64ToIntDefined (ParseFloat r.Total.data).1).isSome &&
  r.Items.all fun item => !qualifies item || (f64ToIntDefined (itemBonus item)).isSome

/-- The two decimal digits of a number below 100. -/
def twoDigits (n : Nat) : List Char := [Char.ofNat (48 + n / 10), Char.ofNat (48 + n % 10)]

/-- The time of day `HH:MM` as the receipt writes it. -/
def clock (h m : Nat) : String := String.mk (twoDigits h ++ ':' :: twoDigits m)

/-- Scenario A with another total. -/
def withTotal (total : String) : Receipt := { scenarioA with Total := total }

/-- Scenario A with another purchase date. -/
def withDate (date : String) : Receipt := { scenarioA with PurchaseDate := date }

/-- Scenario A with another purchase time. -/
def withTime (time : String) : Receipt := { scenarioA with PurchaseTime := time }

/-- The number written by a list of decimal digits. -/
def digitsValue (ds : List Char) : Nat := ds.foldl (fun n c => n * 10 + (c.toNat - 48)) 0

/-- Whether a `float64` is positive, zero or `+Inf`. -/
def F64.nonneg : F64 → Bool
  | .fin n => decide (0 ≤ n)
  | .inf neg => !neg
  | .nan => false

/-- Scenario A with two items of price 4 * 10^19 and an empty description. -/
def overflowReceipt : Receipt :=
  { scenarioA with
    Items := [⟨"", "40000000000000000000"⟩, ⟨"", "40000000000000000000"⟩] }

/-! ## The receipt store and the two handlers -/

/-- The map `receipts` of `main.go`, from identifier to receipt; the mutex
makes each access atomic, so the handlers are run one after the other. -/
def Store : Type := String → Option Receipt

/-- The map right after `make(map[string]Receipt)`. -/
def Store.empty : Store := fun _ => none

/-- The assignment `receipts[id] = receipt`. -/
def Store.put (s : Store) (id : String) (receipt : Receipt) : Store :=
  fun k => if k = id then some receipt else s k

/-- The read `receipt, exists := receipts[id]`. -/
def Store.get (s : Store) (id : String) : Option Receipt := s id

/-- The function `strings.TrimPrefix`. -/
def TrimPrefix (s p : List Char) : List Char :=
  if p.isPrefixOf s then s.drop p.length else s

/-- What `getPointsHandler` answers: not found, the points, or nothing at all
when `calculatePoints` panics. -/
inductive Response where
  | notFound : Response
  | points (p : Int) : Response
  | panicked : Response
  deriving DecidableEq

/-- The core of `processReceiptHandler` (lines 62-67) on a decoded receipt;
`id` is what `uuid.New().String()` returned. It gives the new store and the
identifier of the response. -/
def processReceiptHandler (s : Store) (id : String) (receipt : Receipt) : Store × String :=
  (s.put id receipt, id)

/-- The core of `getPointsHandler` (lines 78-91) on the path of the request:
the store as it leaves it, and the response. -/
def getPointsHandler (oor : F64 → Int) (s : Store) (path : String) : Store × Response :=
  let id := String.mk (TrimPrefix path.data "/receipts/".data)
  match s.get id with
  | none => (s, .notFound)
  | some receipt =>
    match calculatePoints oor receipt with
    | none => (s, .panicked)
    | some points => (s, .points points)

/-- A request to the service. -/
inductive Request where
  | register (id : String) (receipt : Receipt) : Request
  | lookup (path : String) : Request

/-- The store after a request. -/
def handle (oor : F64 → Int) (s : Store) : Request → Store
  | .register id receipt => (processReceiptHandler s id receipt).1
  | .lookup path => (getPointsHandler oor s path).1

/-- The identifier a request registers, if it is a registration. -/
def Request.registered : Request → Option String
  | .register id _ => some id
  | .lookup _ => none

/-- The store after a list of registrations, each with the identifier that
was generated for it. -/
def registerAll (s : Store) (regs : List (String × Receipt)) : Store :=
  regs.foldl (fun s p => (processReceiptHandler s p.1 p.2).1) s

/-- The path that asks for the points of `id`. -/
def pointsPath (id : String) : String := "/receipts/" ++ id

/-! ## Lemmas on wrapping and on the decomposition into rules -/

theorem wrap64_wrap64_add (a b : Int) : wrap64 (wrap64 a + b) = wrap64 (a + b) := by
  unfold wrap64
  omega

theorem wrap64_of_range (a : Int) (h₁ : -(2 ^ 63) ≤ a) (h₂ : a < 2 ^ 63) : wrap64 a = a := by
  unfold wrap64
  omega

theorem wrap64_idem (a : Int) : wrap64 (wrap64 a) = wrap64 a := by
  unfold wrap64
  omega

theorem wrap64_ite (c : Prop) [Decidable c] (a k : Int) :
    (if c then wrap64 (wrap64 a + k) else wrap64 a) = wrap64 (a + if c then k else 0) := by
  by_cases h : c
  · simp [h, wrap64_wrap64_add]
  · simp [h]

theorem f64ToInt_congr (oor oor' : F64 → Int) (x : F64)
    (h : (f64ToIntDefined x).isSome = true) : f64ToInt oor x = f64ToInt oor' x := by
  unfold f64ToInt
  cases hx : f64ToIntDefined x with
  | none => simp [hx] at h
  | some t => rfl

theorem itemStep_eq (oor : F64 → Int) (p : Int) (item : Item) :
    itemStep oor p item =
      if qualifies item then wrap64 (p + f64ToInt oor (itemBonus item)) else p := by
  unfold itemStep qualifies itemBonus
  by_cases hq : ((len (TrimSpace item.ShortDescription.data) : Nat) : Int).tmod 3 = 0
  · simp [hq]
  · simp [hq]

theorem foldl_itemStep (oor : F64 → Int) (items : List Item) :
    ∀ p : Int, wrap64 (items.foldl (itemStep oor) (wrap64 p)) = 
      items.foldl (itemStep oor) (wrap64 p) ∧
      items.foldl (itemStep oor) (wrap64 p) = wrap64 (p + rule5 oor items) := by
  induction items with
  | nil =>
    intro p
    simp [rule5, wrap64_idem]
  | cons item rest ih =>
    intro p
    rw [List.foldl_cons, itemStep_eq]
    by_cases hq : qualifies item = true
    · simp only [hq, if_true]
      rw [wrap64_wrap64_add]
      refine ⟨(ih _).1, ?_⟩
      rw [(ih _).2]
      simp only [rule5, List.filter_cons, hq, if_true, List.map_cons, List.sum_cons]
      rw [add_assoc]
    · have hq' : qualifies item = false := by simpa using hq
      simp only [hq', Bool.false_eq_true, if_false]
      refine ⟨(ih _).1, ?_⟩
      rw [(ih _).2]
      simp [rule5, List.filter_cons, hq']

/-- The function `calculatePoints` is the wrapped sum of the seven rules, and
panics exactly when rule 6 or rule 7 has no field to read. -/
theorem calculatePoints_eq_rules (oor : F64 → Int) (r : Receipt) :
    calculatePoints oor r =
      (rule6 r.PurchaseDate).bind fun d =>
        (rule7 r.PurchaseTime).bind fun t =>
          some (wrap64 (rule1 r.Retailer + rule2 oor r.Total + rule3 r.Total + rule4 r.Items
            + rule5 oor r.Items + d + t)) := by
  have hfold := fun p => (foldl_itemStep oor r.Items p).2
  cases hd : (stringsSplit '-' r.PurchaseDate.data)[2]? with
  | none => simp [calculatePoints, rule6, hd]
  | some dayField =>
    cases hh : (stringsSplit ':' r.PurchaseTime.data)[0]? with
    | none => simp [calculatePoints, rule6, rule7, hd, hh]
    | some hourField =>
      cases hm : (stringsSplit ':' r.PurchaseTime.data)[1]? with
      | none => simp [calculatePoints, rule6, rule7, hd, hh, hm]
      | some minuteField =>
        simp only [calculatePoints, rule6, rule7, hd, hh, hm, Option.bind_some, Option.some.injEq,
          zero_add]
        rw [wrap64_ite, wrap64_ite, wrap64_wrap64_add, hfold, wrap64_ite, wrap64_ite]
        simp only [rule1, rule2, rule3, rule4]
        rfl

theorem rule5_congr (oor oor' : F64 → Int) (items : List Item)
    (h : (items.all fun item =>
      !qualifies item || (f64ToIntDefined (itemBonus item)).isSome) = true) :
    rule5 oor items = rule5 oor' items := by
  induction items with
  | nil => rfl
  | cons item rest ih =>
    rw [List.all_cons, Bool.and_eq_true] at h
    have ih' := ih h.2
    unfold rule5 at ih' ⊢
    by_cases hq : qualifies item = true
    · have hd : (f64ToIntDefined (itemBonus item)).isSome = true := by simpa [hq] using h.1
      simp only [List.filter_cons, hq, if_true, List.map_cons, List.sum_cons, ih',
        f64ToInt_congr oor oor' _ hd]
    · have hq' : qualifies item = false := by simpa using hq
      simp only [List.filter_cons, hq', Bool.false_eq_true, if_false, ih']

theorem calculatePoints_congr (oor oor' : F64 → Int) (r : Receipt)
    (h : conversionsDefined r = true) : calculatePoints oor r = calculatePoints oor' r := by
  unfold conversionsDefined at h
  rw [Bool.and_eq_true] at h
  rw [calculatePoints_eq_rules, calculatePoints_eq_rules, rule5_congr oor oor' _ h.2]
  unfold rule2
  rw [f64ToInt_congr oor oor' _ h.1]

/-! ## The scenarios -/

/-- C1: the receipt of scenario A (retailer "Target", total "10.00", date
"2022-03-02", time "13:01", items ("abc","3.00") and ("abcdef","6.00"))
scores exactly 89, and the seven rules contribute 6, 50, 25, 5, 1 + 2, 0 and
0, whatever an out-of-range conversion would give. -/
theorem scenarioA_points (oor : F64 → Int) :
    calculatePoints oor scenarioA = some 89 ∧
    rule1 scenarioA.Retailer = 6 ∧ rule2 oor scenarioA.Total = 50 ∧
    rule3 scenarioA.Total = 25 ∧ rule4 scenarioA.Items = 5 ∧
    f64ToInt oor (itemBonus ⟨"abc", "3.00"⟩) = 1 ∧
    f64ToInt oor (itemBonus ⟨"abcdef", "6.00"⟩) = 2 ∧
    rule5 oor scenarioA.Items = 1 + 2 ∧
    rule6 scenarioA.PurchaseDate = some 0 ∧ rule7 scenarioA.PurchaseTime = some 0 := by
  have hdef : conversionsDefined scenarioA = true := by decide!
  have h5 : rule5 oor scenarioA.Items = rule5 (fun _ => 0) scenarioA.Items :=
    rule5_congr oor _ _ (by decide!)
  have h2 : rule2 oor scenarioA.Total = rule2 (fun _ => 0) scenarioA.Total := by
    unfold rule2
    rw [f64ToInt_congr oor (fun _ => 0) _ (by decide!)]
  refine ⟨(calculatePoints_congr oor (fun _ => 0) scenarioA hdef).trans (by decide!),
    by decide!, h2.trans (by decide!), by decide!, by decide!,
    (f64ToInt_congr oor (fun _ => 0) _ (by decide!)).trans (by decide!),
    (f64ToInt_congr oor (fun _ => 0) _ (by decide!)).trans (by decide!),
    h5.trans (by decide!), by decide!, by decide!⟩

/-- C2: scenario B, which is scenario A with date "2022-03-15" and time
"14:00", scores exactly 105 = 89 + 6 + 10: rule 6 now gives 6 and rule 7 now
gives 10, and every other field is the one of scenario A. -/
theorem scenarioB_points (oor : F64 → Int) :
    calculatePoints oor scenarioB = some 105 ∧
    calculatePoints oor scenarioB = (calculatePoints oor scenarioA).map (· + 6 + 10) ∧
    rule6 scenarioB.PurchaseDate = some 6 ∧ rule7 scenarioB.PurchaseTime = some 10 ∧
    scenarioB.Retailer = scenarioA.Retailer ∧ scenarioB.Total = scenarioA.Total ∧
    scenarioB.Items = scenarioA.Items := by
  have hdef : conversionsDefined scenarioB = true := by decide!
  have hdefA : conversionsDefined scenarioA = true := by decide!
  have hB : calculatePoints oor scenarioB = some 105 :=
    (calculatePoints_congr oor (fun _ => 0) scenarioB hdef).trans (by decide!)
  have hA : calculatePoints oor scenarioA = some 89 :=
    (calculatePoints_congr oor (fun _ => 0) scenarioA hdefA).trans (by decide!)
  refine ⟨hB, ?_, by decide!, by decide!, rfl, rfl, rfl⟩
  rw [hA, hB]
  rfl

/-! ## Rule 1 -/

theorem findAllString_length (cls : Char → Bool) (s : List Char) :
    (FindAllString cls s).length = (s.filter cls).length := by
  induction s with
  | nil => rfl
  | cons c cs ih =>
    unfold FindAllString
    by_cases hc : cls c = true
    · simp [hc, ih]
    · simp [hc, ih]

/-- C7: rule 1 contributes the number of characters of the retailer that lie
in `[A-Za-z0-9]`; a character is in the class exactly when its code is in
one of the three ASCII ranges, so a space, `&` and every non-ASCII character
contribute nothing; the retailer "M&M" contributes 2. -/
theorem rule1_counts_alnum (retailer : String) :
    rule1 retailer = ((retailer.data.filter alnumClass).length : Int) ∧
    (∀ c : Char, alnumClass c = true ↔
      (97 ≤ c.toNat ∧ c.toNat ≤ 122) ∨ (65 ≤ c.toNat ∧ c.toNat ≤ 90) ∨
      (48 ≤ c.toNat ∧ c.toNat ≤ 57)) ∧
    (∀ c : Char, 128 ≤ c.toNat → alnumClass c = false) ∧
    alnumClass ' ' = false ∧ alnumClass '&' = false ∧ alnumClass 'é' = false ∧
    rule1 "M&M" = 2 := by
  have hcls : ∀ c : Char, alnumClass c = true ↔
      (97 ≤ c.toNat ∧ c.toNat ≤ 122) ∨ (65 ≤ c.toNat ∧ c.toNat ≤ 90) ∨
      (48 ≤ c.toNat ∧ c.toNat ≤ 57) := by
    intro c
    have ha : ('a' ≤ c) = (97 ≤ c.toNat) := rfl
    have hz : (c ≤ 'z') = (c.toNat ≤ 122) := rfl
    have hA : ('A' ≤ c) = (65 ≤ c.toNat) := rfl
    have hZ : (c ≤ 'Z') = (c.toNat ≤ 90) := rfl
    have h0 : ('0' ≤ c) = (48 ≤ c.toNat) := rfl
    have h9 : (c ≤ '9') = (c.toNat ≤ 57) := rfl
    simp only [alnumClass, Bool.or_eq_true, Bool.and_eq_true, decide_eq_true_eq, Bool.decide_or,
      Bool.decide_and, ha, hz, hA, hZ, h0, h9]
  refine ⟨?_, hcls, ?_, by decide, by decide, by decide, by decide⟩
  · unfold rule1
    rw [findAllString_length]
  · intro c hc
    cases h : alnumClass c with
    | false => rfl
    | true =>
      have := (hcls c).1 h
      omega

/-! ## Rule 5 -/

theorem trimSpace_of_spaces (s : List Char) (h : ∀ c ∈ s, isSpace c = true) :
    TrimSpace s = [] := by
  unfold TrimSpace
  rw [List.dropWhile_eq_nil_iff.2 h]
  rfl

/-! ## Rule 7 -/

/-- C10: for a time `HH:MM` with `HH ≤ 23` and `MM ≤ 59`, the fields are read
as `HH` and `MM`, rule 7 contributes 10 when `HH` is 14 or 15 and 0
otherwise, and the condition of the code, `hour == 14 || (hour == 15 &&
minute < 60)`, holds exactly when `HH` is 14 or 15, that is for the times
from 14:00 up to but not including 16:00; "16:00" contributes 0. -/
theorem rule7_window (h m : Nat) (hh : h ≤ 23) (hm : m ≤ 59) :
    rule7 (clock h m) = some (if h = 14 ∨ h = 15 then 10 else 0) ∧
    (stringsSplit ':' (clock h m).data).map (fun f => (Atoi f).1) = [(h : Int), (m : Int)] ∧
    (((h : Int) = 14 ∨ ((h : Int) = 15 ∧ (m : Int) < 60)) ↔ (h = 14 ∨ h = 15)) ∧
    ((h = 14 ∨ h = 15) ↔ (14 * 60 ≤ h * 60 + m ∧ h * 60 + m < 16 * 60)) ∧
    rule7 "16:00" = some 0 := by
  have key : ∀ h < 24, ∀ m < 60,
      rule7 (clock h m) = some (if h = 14 ∨ h = 15 then 10 else 0) ∧
      (stringsSplit ':' (clock h m).data).map (fun f => (Atoi f).1) = [(h : Int), (m : Int)] := by
    decide!
  refine ⟨(key h (by omega) m (by omega)).1, (key h (by omega) m (by omega)).2, ?_, ?_,
    by decide⟩
  · omega
  · omega

/-- Witness of C10 at 15:59. -/
theorem rule7_window_witness :
    rule7 (clock 15 59) = some (if 15 = 14 ∨ 15 = 15 then 10 else 0) ∧
    (stringsSplit ':' (clock 15 59).data).map (fun f => (Atoi f).1) = [((15 : Nat) : Int), ((59 : Nat) : Int)] ∧
    ((((15 : Nat) : Int) = 14 ∨ (((15 : Nat) : Int) = 15 ∧ ((59 : Nat) : Int) < 60)) ↔ (15 = 14 ∨ 15 = 15)) ∧
    ((15 = 14 ∨ 15 = 15) ↔ (14 * 60 ≤ 15 * 60 + 59 ∧ 15 * 60 + 59 < 16 * 60)) ∧
    rule7 "16:00" = some 0 :=
  rule7_window 15 59 (by decide) (by decide)

/-! ## Fields that do not parse -/

theorem parseFloat_malformed (s : List Char) (h : (ParseFloat s).2 = some .malformed) :
    (ParseFloat s).1 = .fin 0 := by
  unfold ParseFloat at h ⊢
  cases hs : special s with
  | some xn =>
    obtain ⟨x, n⟩ := xn
    simp only [hs] at h ⊢
    by_cases hn : n = s.length
    · simp [hn] at h
    · simp [hn]
  | none =>
    simp only [hs] at h ⊢
    cases hr : readFloat s with
    | none => rfl
    | some l =>
      simp only [hr] at h ⊢
      have hx : ∀ x : F64, (match x with
          | .inf neg => ((F64.inf neg, some NumErr.outOfRange) : F64 × Option NumErr)
          | x => (x, none)).2 ≠ some .malformed := by
        intro x
        cases x <;> simp
      unfold FloatLit.toF64 at h
      exact absurd h (hx _)

theorem atoi_malformed (s : List Char) (h : (Atoi s).2 = some .malformed) : (Atoi s).1 = 0 := by
  unfold Atoi ParseInt at h ⊢
  cases s with
  | nil => rfl
  | cons c cs =>
    simp only at h ⊢
    generalize ParseUint (if c = '+' ∨ c = '-' then cs else c :: cs) = pu at h ⊢
    obtain ⟨un, e⟩ := pu
    cases e with
    | none =>
      simp only at h
      split_ifs at h <;> simp at h
    | some e =>
      cases e with
      | malformed => rfl
      | outOfRange =>
        simp only at h
        split_ifs at h <;> simp at h

theorem rule2_of_zero (oor : F64 → Int) (total : String)
    (h : (ParseFloat total.data).1 = .fin 0) : rule2 oor total = 50 := by
  unfold rule2
  rw [h]
  have h1 : f64ToInt oor (.fin 0) = 0 := by
    unfold f64ToInt f64ToIntDefined
    simp
  rw [h1]
  have h2 : F64.eq (.fin 0) (intToF64 0) = true := by decide!
  rw [h2]
  rfl

theorem rule3_of_zero (total : String) (h : (ParseFloat total.data).1 = .fin 0) :
    rule3 total = 25 := by
  unfold rule3
  rw [h]
  have h2 : F64.eq (F64.mod (.fin 0) quarter) (.fin 0) = true := by decide!
  rw [h2]
  rfl

/-- C3 (what the code does): a total that `ParseFloat` rejects as malformed
is read as 0, and 0 passes both tests: rule 2 contributes 50 and rule 3
contributes 25, so the receipt scores what it would score with the total
"0". -/
theorem malformed_total_scores (oor : F64 → Int) (r : Receipt)
    (h : (ParseFloat r.Total.data).2 = some .malformed) :
    (ParseFloat r.Total.data).1 = .fin 0 ∧ rule2 oor r.Total = 50 ∧ rule3 r.Total = 25 ∧
    calculatePoints oor r = calculatePoints oor { r with Total := "0" } := by
  have h0 := parseFloat_malformed _ h
  have hz : (ParseFloat "0".data).1 = .fin 0 := by decide!
  refine ⟨h0, rule2_of_zero oor _ h0, rule3_of_zero _ h0, ?_⟩
  rw [calculatePoints_eq_rules, calculatePoints_eq_rules, rule2_of_zero oor _ h0,
    rule3_of_zero _ h0]
  simp only [rule2_of_zero oor "0" hz, rule3_of_zero "0" hz]

/-- Witness of C3: scenario A with the total "abc" scores 89, as with the
total "10.00"; with the total "0.10", which earns nothing under rules 2 and
3, it scores 14. -/
theorem malformed_total_scores_witness :
    (ParseFloat (withTotal "abc").Total.data).2 = some .malformed ∧
    (ParseFloat (withTotal "").Total.data).2 = some .malformed ∧
    rule2 (fun _ => 0) (withTotal "abc").Total = 50 ∧ rule3 (withTotal "abc").Total = 25 ∧
    rule2 (fun _ => 0) (withTotal "").Total = 50 ∧ rule3 (withTotal "").Total = 25 ∧
    calculatePoints (fun _ => 0) (withTotal "abc") = some 89 ∧
    calculatePoints (fun _ => 0) (withTotal "") = some 89 ∧
    calculatePoints (fun _ => 0) (withTotal "0.10") = some 14 :=
  ⟨by decide!, by decide!,
    (malformed_total_scores (fun _ => 0) (withTotal "abc") (by decide!)).2.1,
    (malformed_total_scores (fun _ => 0) (withTotal "abc") (by decide!)).2.2.1,
    (malformed_total_scores (fun _ => 0) (withTotal "") (by decide!)).2.1,
    (malformed_total_scores (fun _ => 0) (withTotal "") (by decide!)).2.2.1,
    by decide!, by decide!, by decide!⟩

/-- C4 as stated fails: the date "2022-03-15-01" has four fields, yet rule 6
reads its third field, 15, and contributes 6 (the score is 95, not 89); the
date "20220315" has one field and `calculatePoints` panics. No conversion to
`int` is out of range on these receipts. -/
theorem malformed_date_counterexample :
    (stringsSplit '-' (withDate "2022-03-15-01").PurchaseDate.data).length = 4 ∧
    rule6 (withDate "2022-03-15-01").PurchaseDate = some 6 ∧
    calculatePoints (fun _ => 0) (withDate "2022-03-15-01") = some 95 ∧
    conversionsDefined (withDate "2022-03-15-01") = true ∧
    (stringsSplit '-' (withDate "20220315").PurchaseDate.data).length = 1 ∧
    calculatePoints (fun _ => 0) (withDate "20220315") = none ∧
    (stringsSplit '-' (withDate "2022-03").PurchaseDate.data).length = 2 ∧
    calculatePoints (fun _ => 0) (withDate "2022-03") = none := by
  refine ⟨by decide!, by decide!, by decide!, by decide!, by decide!, by decide!, by decide!,
    by decide!⟩

/-- C4 as amended: when the date has a third field and the time a second
one, `calculatePoints` does not panic and rule 6 is decided by the third
field of the date alone; when that field is not a number for `Atoi`, rule 6
contributes 0 and the score is the one of the same receipt with any date
for which rule 6 contributes 0, the other six rules being unchanged. -/
theorem malformed_day_contributes_zero (oor : F64 → Int) (r : Receipt)
    (dayField minuteField : List Char)
    (hd : (stringsSplit '-' r.PurchaseDate.data)[2]? = some dayField)
    (ht : (stringsSplit ':' r.PurchaseTime.data)[1]? = some minuteField) :
    rule6 r.PurchaseDate = some (if (Atoi dayField).1.tmod 2 ≠ 0 then 6 else 0) ∧
    (∃ d t, rule6 r.PurchaseDate = some d ∧ rule7 r.PurchaseTime = some t ∧
      calculatePoints oor r =
        some (wrap64 (rule1 r.Retailer + rule2 oor r.Total + rule3 r.Total + rule4 r.Items
          + rule5 oor r.Items + d + t))) ∧
    ((Atoi dayField).2 = some .malformed →
      rule6 r.PurchaseDate = some 0 ∧
      ∃ t, rule7 r.PurchaseTime = some t ∧
        calculatePoints oor r =
          some (wrap64 (rule1 r.Retailer + rule2 oor r.Total + rule3 r.Total + rule4 r.Items
            + rule5 oor r.Items + 0 + t)) ∧
        ∀ date : String, rule6 date = some 0 →
          calculatePoints oor r = calculatePoints oor { r with PurchaseDate := date }) := by
  have h6 : rule6 r.PurchaseDate = some (if (Atoi dayField).1.tmod 2 ≠ 0 then 6 else 0) := by
    unfold rule6
    rw [hd]
  obtain ⟨hourField, hh⟩ : ∃ f, (stringsSplit ':' r.PurchaseTime.data)[0]? = some f := by
    cases hl : stringsSplit ':' r.PurchaseTime.data with
    | nil => rw [hl] at ht; simp at ht
    | cons f fs => exact ⟨f, by simp⟩
  have h7 : ∃ t, rule7 r.PurchaseTime = some t := by
    unfold rule7
    rw [hh, ht]
    exact ⟨_, rfl⟩
  obtain ⟨t, h7⟩ := h7
  refine ⟨h6, ⟨_, t, h6, h7, ?_⟩, ?_⟩
  · rw [calculatePoints_eq_rules, h6, h7]
    rfl
  · intro hm
    have h0 : rule6 r.PurchaseDate = some 0 := by
      rw [h6, atoi_malformed _ hm]
      rfl
    refine ⟨h0, t, h7, ?_, ?_⟩
    · rw [calculatePoints_eq_rules, h0, h7]
      rfl
    · intro date hdate
      rw [calculatePoints_eq_rules, calculatePoints_eq_rules, h0, hdate]

/-- Witness of C4 as amended: scenario A with the date "2022-03-xx". -/
theorem malformed_day_contributes_zero_witness :
    (stringsSplit '-' (withDate "2022-03-xx").PurchaseDate.data)[2]? = some "xx".data ∧
    (stringsSplit ':' (withDate "2022-03-xx").PurchaseTime.data)[1]? = some "01".data ∧
    (Atoi "xx".data).2 = some .malformed ∧
    rule6 (withDate "2022-03-xx").PurchaseDate = some 0 ∧
    calculatePoints (fun _ => 0) (withDate "2022-03-xx") = some 89 :=
  ⟨by decide!, by decide!, by decide!,
    ((malformed_day_contributes_zero (fun _ => 0) (withDate "2022-03-xx") "xx".data "01".data
      (by decide!) (by decide!)).2.2 (by decide!)).1,
    by decide!⟩

/-- C5 as stated fails: the time "14:xx" has a minute that is not a number,
yet the hour 14 alone earns the 10 points of rule 7 (the score is 99, not
89); the time "1400" has no second field and `calculatePoints` panics. No
conversion to `int` is out of range on these receipts. -/
theorem malformed_time_counterexample :
    (stringsSplit ':' (withTime "14:xx").PurchaseTime.data) = ["14".data, "xx".data] ∧
    (Atoi "xx".data).2 = some .malformed ∧
    rule7 (withTime "14:xx").PurchaseTime = some 10 ∧
    calculatePoints (fun _ => 0) (withTime "14:xx") = some 99 ∧
    conversionsDefined (withTime "14:xx") = true ∧
    (stringsSplit ':' (withTime "1400").PurchaseTime.data).length = 1 ∧
    calculatePoints (fun _ => 0) (withTime "1400") = none := by
  refine ⟨by decide!, by decide!, by decide!, by decide!, by decide!, by decide!, by decide!⟩

/-- C5 as amended: when the date has a third field and the time a second
one, `calculatePoints` does not panic. When the first field of the time (the
hour) is not a number for `Atoi`, rule 7 contributes 0 and the score is the
one of the same receipt with any time for which rule 7 contributes 0, the
other six rules being unchanged. When the second field (the minute) is not a
number, it is read as 0 and rule 7 contributes 10 exactly when the hour is
14 or 15. -/
theorem malformed_time_contribution (oor : F64 → Int) (r : Receipt)
    (dayField hourField minuteField : List Char)
    (hd : (stringsSplit '-' r.PurchaseDate.data)[2]? = some dayField)
    (hh : (stringsSplit ':' r.PurchaseTime.data)[0]? = some hourField)
    (ht : (stringsSplit ':' r.PurchaseTime.data)[1]? = some minuteField) :
    (∃ d t, rule6 r.PurchaseDate = some d ∧ rule7 r.PurchaseTime = some t ∧
      calculatePoints oor r =
        some (wrap64 (rule1 r.Retailer + rule2 oor r.Total + rule3 r.Total + rule4 r.Items
          + rule5 oor r.Items + d + t))) ∧
    ((Atoi hourField).2 = some .malformed →
      rule7 r.PurchaseTime = some 0 ∧
      ∃ d, rule6 r.PurchaseDate = some d ∧
        calculatePoints oor r =
          some (wrap64 (rule1 r.Retailer + rule2 oor r.Total + rule3 r.Total + rule4 r.Items
            + rule5 oor r.Items + d + 0)) ∧
        ∀ time : String, rule7 time = some 0 →
          calculatePoints oor r = calculatePoints oor { r with PurchaseTime := time }) ∧
    ((Atoi minuteField).2 = some .malformed →
      rule7 r.PurchaseTime =
        some (if (Atoi hourField).1 = 14 ∨ (Atoi hourField).1 = 15 then 10 else 0)) := by
  have h6 : rule6 r.PurchaseDate = some (if (Atoi dayField).1.tmod 2 ≠ 0 then 6 else 0) := by
    unfold rule6
    rw [hd]
  have h7 : rule7 r.PurchaseTime =
      some (if (Atoi hourField).1 = 14 ∨ ((Atoi hourField).1 = 15 ∧ (Atoi minuteField).1 < 60)
        then 10 else 0) := by
    unfold rule7
    rw [hh, ht]
  refine ⟨⟨_, _, h6, h7, ?_⟩, ?_, ?_⟩
  · rw [calculatePoints_eq_rules, h6, h7]
    rfl
  · intro hm
    have h0 : rule7 r.PurchaseTime = some 0 := by
      rw [h7, atoi_malformed _ hm]
      simp
    refine ⟨h0, _, h6, ?_, ?_⟩
    · rw [calculatePoints_eq_rules, h6, h0]
      rfl
    · intro time htime
      rw [calculatePoints_eq_rules, calculatePoints_eq_rules, h0, htime]
  · intro hm
    rw [h7, atoi_malformed _ hm]
    simp

/-- Witness of C5 as amended: scenario A with the time "xx:30". -/
theorem malformed_time_contribution_witness :
    (stringsSplit '-' (withTime "xx:30").PurchaseDate.data)[2]? = some "02".data ∧
    (stringsSplit ':' (withTime "xx:30").PurchaseTime.data)[0]? = some "xx".data ∧
    (stringsSplit ':' (withTime "xx:30").PurchaseTime.data)[1]? = some "30".data ∧
    (Atoi "xx".data).2 = some .malformed ∧
    rule7 (withTime "xx:30").PurchaseTime = some 0 ∧
    calculatePoints (fun _ => 0) (withTime "xx:30") = some 89 :=
  ⟨by decide!, by decide!, by decide!, by decide!,
    ((malformed_time_contribution (fun _ => 0) (withTime "xx:30") "02".data "xx".data "30".data
      (by decide!) (by decide!) (by decide!)).2.1 (by decide!)).1,
    by decide!⟩

/-! ## Rounding to float64 -/

theorem unit_pos : 0 < unit := by
  unfold unit
  exact Nat.two_pow_pos _

theorem unit_split (s : Nat) (hs : s ≤ 1074) : unit = 2 ^ (1074 - s) * 2 ^ s := by
  unfold unit
  rw [← pow_add]
  congr 1
  omega

theorem binadeShift_spec (fuel : Nat) :
    ∀ q : Nat, q < 2 ^ (53 + fuel) →
      (q < 2 ^ 53 → binadeShift fuel q = 0) ∧
      (2 ^ 53 ≤ q → 2 ^ (52 + binadeShift fuel q) ≤ q ∧ q < 2 ^ (53 + binadeShift fuel q)) := by
  induction fuel with
  | zero =>
    intro q hq
    refine ⟨fun _ => rfl, fun h => ?_⟩
    simp at hq
    omega
  | succ fuel ih =>
    intro q hq
    unfold binadeShift
    by_cases h : q < 2 ^ 53
    · rw [if_pos h]
      exact ⟨fun _ => rfl, fun h' => by omega⟩
    · rw [if_neg h]
      refine ⟨fun h' => absurd h' h, fun _ => ?_⟩
      have hq2 : q / 2 < 2 ^ (53 + fuel) := by
        have : 2 ^ (53 + (fuel + 1)) = 2 * 2 ^ (53 + fuel) := by
          rw [← add_assoc, pow_succ]; ring
        omega
      obtain ⟨h0, h1⟩ := ih (q / 2) hq2
      by_cases hlow : q / 2 < 2 ^ 53
      · rw [h0 hlow]
        simp only [Nat.zero_add]
        have e1 : (2:ℕ) ^ (52 + 1) = 2 ^ 53 := rfl
        have e2 : (2:ℕ) ^ (53 + 1) = 2 * 2 ^ 53 := by rw [pow_succ]; ring
        rw [e1, e2]
        omega
      · obtain ⟨ha, hb⟩ := h1 (by omega)
        have e1 : (2:ℕ) ^ (52 + (binadeShift fuel (q / 2) + 1)) =
            2 * 2 ^ (52 + binadeShift fuel (q / 2)) := by
          rw [← add_assoc, pow_succ]; ring
        have e2 : (2:ℕ) ^ (53 + (binadeShift fuel (q / 2) + 1)) =
            2 * 2 ^ (53 + binadeShift fuel (q / 2)) := by
          rw [← add_assoc, pow_succ]; ring
        rw [e1, e2]
        omega

theorem roundHalfEven_exact (b v : Nat) (hb : 0 < b) : roundHalfEven (b * v) b = v := by
  unfold roundHalfEven
  rw [Nat.mul_mod_right, Nat.mul_div_cancel_left v hb]
  simp [hb]

theorem roundHalfEven_bounds (a b : Nat) :
    a / b ≤ roundHalfEven a b ∧ roundHalfEven a b ≤ a / b + 1 := by
  unfold roundHalfEven
  split_ifs <;> omega

theorem binadeShift_le (q k : Nat) (hq : q < 2 ^ (53 + k)) (hk : k ≤ 2100) :
    binadeShift 2100 q ≤ k := by
  have hq' : q < 2 ^ (53 + 2100) :=
    lt_of_lt_of_le hq (Nat.pow_le_pow_right (by decide) (by omega))
  obtain ⟨h0, h1⟩ := binadeShift_spec 2100 q hq'
  by_cases h : q < 2 ^ 53
  · rw [h0 h]
    exact Nat.zero_le _
  · obtain ⟨ha, _⟩ := h1 (by omega)
    have hlt : 2 ^ (52 + binadeShift 2100 q) < 2 ^ (53 + k) := lt_of_le_of_lt ha hq
    have := (Nat.pow_lt_pow_iff_right (by decide : 1 < 2)).1 hlt
    omega

theorem roundUnits_exact (num den v : Nat) (hden : 0 < den) (hv : num * unit = den * v)
    (hs : 2 ^ binadeShift 2100 v ∣ v) : roundUnits num den = v := by
  unfold roundUnits
  have hq : num * unit / den = v := by
    rw [hv]
    exact Nat.mul_div_cancel_left v hden
  simp only [hq]
  obtain ⟨w, hw⟩ := hs
  have e : num * unit = (den * 2 ^ binadeShift 2100 v) * w := by
    rw [hv]
    conv_lhs => rw [hw]
    ring
  rw [e, roundHalfEven_exact _ _ (Nat.mul_pos hden (Nat.two_pow_pos _))]
  conv_rhs => rw [hw]
  ring

theorem roundUnits_exact_of_lt (num den k j : Nat) (hden : 0 < den) (hj : j ≤ 2100)
    (hv : num * unit = den * (k * 2 ^ j)) (hk : k < 2 ^ 53) :
    roundUnits num den = k * 2 ^ j := by
  apply roundUnits_exact num den _ hden hv
  have hlt : k * 2 ^ j < 2 ^ (53 + j) := by
    rw [pow_add]
    exact Nat.mul_lt_mul_of_pos_right hk (Nat.two_pow_pos _)
  have hle := binadeShift_le _ j hlt hj
  exact Dvd.dvd.mul_left (Nat.pow_dvd_pow 2 hle) k

theorem overflowUnits_eq : overflowUnits = 2 ^ 1024 * unit := by
  unfold overflowUnits unit
  rw [← pow_add]

theorem roundF64_exact (neg : Bool) (num den k j : Nat) (hden : 0 < den) (hj : j ≤ 1074)
    (hv : num * unit = den * (k * 2 ^ j)) (hk : k < 2 ^ 53) :
    roundF64 neg num den = .fin (if neg then -((k * 2 ^ j : Nat) : Int) else (k * 2 ^ j : Nat)) := by
  have hr := roundUnits_exact_of_lt num den k j hden (by omega) hv hk
  have hq : num * unit / den = k * 2 ^ j := by
    rw [hv]
    exact Nat.mul_div_cancel_left _ hden
  have hlt : k * 2 ^ j < overflowUnits := by
    have h1 : k * 2 ^ j < 2 ^ 53 * 2 ^ j := Nat.mul_lt_mul_of_pos_right hk (Nat.two_pow_pos _)
    have h2 : 2 ^ 53 * 2 ^ j ≤ overflowUnits := by
      unfold overflowUnits
      rw [← pow_add]
      exact Nat.pow_le_pow_right (by decide) (by omega)
    omega
  unfold roundF64
  rw [hq, hr, if_neg (by omega), if_neg (by omega)]

theorem intToF64_nat (t : Nat) (ht : t < 2 ^ 53) :
    intToF64 (t : Int) = .fin ((t * unit : Nat) : Int) := by
  unfold intToF64
  have h := roundF64_exact false t 1 t 1074 (by decide) (le_refl _)
    (by unfold unit; ring) ht
  have hneg : decide ((t : Int) < 0) = false := by
    simp
  rw [hneg, Int.natAbs_ofNat]
  rw [h]
  simp [unit]

theorem roundF64_cents_exact (N : Nat) (hN : N < 100 * 2 ^ 46) (h25 : 25 ∣ N) :
    roundF64 false N 100 = .fin ((N / 25 * 2 ^ 1072 : Nat) : Int) := by
  obtain ⟨k, rfl⟩ := h25
  have hk : k < 2 ^ 53 := by omega
  have h := roundF64_exact false (25 * k) 100 k 1072 (by decide) (by decide)
    (by
      have : unit = 4 * 2 ^ 1072 := by
        unfold unit
        rw [show (1074 : ℕ) = 1072 + 2 by rfl, pow_add]
        ring
      rw [this]
      ring) hk
  rw [h, Nat.mul_div_cancel_left k (by decide : 0 < 25)]
  rfl

theorem roundF64_cents_inexact (N : Nat) (hN : N < 100 * 2 ^ 46) (h25 : ¬ 25 ∣ N) :
    ∃ n : Nat, roundF64 false N 100 = .fin (n : Int) ∧ ¬ 2 ^ 1072 ∣ n ∧ n ≤ 2 ^ 46 * unit := by
  -- the spacing of the doubles around the value
  have hq : N * unit / 100 < 2 ^ (53 + 1067) := by
    apply Nat.div_lt_of_lt_mul
    have : (2:ℕ) ^ (53 + 1067) = 2 ^ 46 * unit := by
      unfold unit
      rw [← pow_add]
    rw [this]
    have := Nat.mul_lt_mul_of_pos_right hN unit_pos
    calc N * unit < 100 * 2 ^ 46 * unit := this
      _ = 100 * (2 ^ 46 * unit) := by ring
  have hs := binadeShift_le _ 1067 hq (by decide)
  generalize hsdef : binadeShift 2100 (N * unit / 100) = s at hs
  have hU : unit = 128 * 2 ^ (1067 - s) * 2 ^ s := by
    unfold unit
    rw [mul_assoc, ← pow_add, show (128 : ℕ) = 2 ^ 7 by rfl, ← pow_add]
    congr 1
    omega
  generalize hW : 2 ^ (1067 - s) = W at hU
  have hWpos : 0 < W := by
    rw [← hW]
    exact Nat.two_pow_pos _
  have h2s : 0 < 2 ^ s := Nat.two_pow_pos _
  -- the rounded mantissa
  have hm := roundHalfEven_bounds (N * unit) (100 * 2 ^ s)
  have hdiv : N * unit / (100 * 2 ^ s) = N * 128 * W / 100 := by
    rw [hU, show N * (128 * W * 2 ^ s) = (N * 128 * W) * 2 ^ s by ring]
    exact Nat.mul_div_mul_right _ _ h2s
  rw [hdiv] at hm
  generalize hmdef : roundHalfEven (N * unit) (100 * 2 ^ s) = m at hm
  have hround : roundUnits N 100 = m * 2 ^ s := by
    unfold roundUnits
    simp only [hsdef, hmdef]
  -- decompose N
  have hr1 : 1 ≤ N % 25 := by
    rcases Nat.eq_zero_or_pos (N % 25) with h | h
    · exact absurd (Nat.dvd_of_mod_eq_zero h) h25
    · exact h
  have hr2 : N % 25 < 25 := Nat.mod_lt _ (by decide)
  have hN25 : N = 25 * (N / 25) + N % 25 := (Nat.div_add_mod N 25).symm
  generalize N / 25 = a at hN25
  generalize N % 25 = r at hN25 hr1 hr2
  have hT : N * 128 * W = 3200 * (a * W) + 128 * (r * W) := by
    rw [hN25]
    ring
  have hrW1 : W ≤ r * W := Nat.le_mul_of_pos_left W hr1
  have hrW2 : r * W ≤ 24 * W := Nat.mul_le_mul_right W (by omega)
  have hmle : m ≤ 2 ^ 46 * 128 * W := by
    have : N * 128 * W < 100 * (2 ^ 46 * 128 * W) := by
      have := Nat.mul_lt_mul_of_pos_right hN (Nat.mul_pos (by decide : 0 < 128) hWpos)
      calc N * 128 * W = N * (128 * W) := by ring
        _ < 100 * 2 ^ 46 * (128 * W) := this
        _ = 100 * (2 ^ 46 * 128 * W) := by ring
    omega
  have hnle : m * 2 ^ s ≤ 2 ^ 46 * unit := by
    rw [hU]
    calc m * 2 ^ s ≤ 2 ^ 46 * 128 * W * 2 ^ s := Nat.mul_le_mul_right _ hmle
      _ = 2 ^ 46 * (128 * W * 2 ^ s) := by ring
  have hov : 2 ^ 46 * unit < overflowUnits := by
    rw [overflowUnits_eq]
    exact Nat.mul_lt_mul_of_pos_right
      (Nat.pow_lt_pow_right (by decide) (by decide)) unit_pos
  refine ⟨m * 2 ^ s, ?_, ?_, hnle⟩
  · unfold roundF64
    have h1 : ¬ overflowUnits ≤ N * unit / 100 := by
      have : (2:ℕ) ^ (53 + 1067) = 2 ^ 46 * unit := by
        unfold unit
        rw [← pow_add]
      omega
    rw [if_neg h1, hround, if_neg (by omega)]
    rfl
  · intro hdvd
    have h1072 : (2:ℕ) ^ 1072 = 32 * W * 2 ^ s := by
      have h : (2:ℕ) ^ (5 + (1067 - s) + s) = 32 * W * 2 ^ s := by
        rw [pow_add, pow_add, hW]
        rfl
      have e : 5 + (1067 - s) + s = 1072 := by omega
      rw [e] at h
      exact h
    rw [h1072] at hdvd
    have hdvd' : 32 * W ∣ m := Nat.dvd_of_mul_dvd_mul_right h2s hdvd
    obtain ⟨j, hj⟩ := hdvd'
    have hj' : m = 32 * (j * W) := by
      rw [hj]
      ring
    by_cases hja : j ≤ a
    · have := Nat.mul_le_mul_right W hja
      omega
    · have : (a + 1) * W ≤ j * W := Nat.mul_le_mul_right W (by omega)
      have e : (a + 1) * W = a * W + W := by ring
      omega

/-! ## Reading an amount with two decimals -/

theorem decDigit_some (c : Char) (h : (decDigit c).isSome = true) :
    decDigit c = some (c.toNat - 48) ∧ 48 ≤ c.toNat ∧ c.toNat ≤ 57 := by
  unfold decDigit at h ⊢
  by_cases hc : '0' ≤ c ∧ c ≤ '9'
  · rw [if_pos hc]
    have h0 : 48 ≤ c.toNat := hc.1
    have h9 : c.toNat ≤ 57 := hc.2
    exact ⟨rfl, h0, h9⟩
  · rw [if_neg hc] at h
    simp at h

theorem digit_ne (c x : Char) (h : (decDigit c).isSome = true) (hx : decDigit x = none) :
    c ≠ x := by
  rintro rfl
  rw [hx] at h
  simp at h

theorem readDigits_digits (ds : List Char) (hds : ∀ c ∈ ds, (decDigit c).isSome = true) :
    ∀ (st : Mantissa) (rest : List Char),
      readDigits false st (ds ++ rest) =
        readDigits false
          { sawdot := st.sawdot
            sawdigits := st.sawdigits || !ds.isEmpty
            mant := ds.foldl (fun n c => n * 10 + (c.toNat - 48)) st.mant
            frac := if st.sawdot then st.frac + ds.length else st.frac
            underscores := st.underscores } rest := by
  induction ds with
  | nil =>
    intro st rest
    simp
  | cons d ds ih =>
    intro st rest
    have hd := hds d (List.mem_cons_self _ _)
    have h1 : d ≠ '_' := digit_ne d '_' hd (by decide)
    have h2 : d ≠ '.' := digit_ne d '.' hd (by decide)
    rw [List.cons_append, readDigits]
    simp only [h1, h2, if_false, (decDigit_some d hd).1, Bool.false_eq_true]
    rw [ih (fun c hc => hds c (List.mem_cons_of_mem _ hc))]
    congr 1
    cases hsd : st.sawdot <;> simp [hsd]
    omega


theorem special_of_digit_or_dot (c : Char) (cs : List Char)
    (h : (decDigit c).isSome = true ∨ c = '.') : special (c :: cs) = none := by
  have hne : ∀ x : Char, decDigit x = none → x ≠ '.' → c ≠ x := by
    intro x hx hdot
    rcases h with h | h
    · exact digit_ne c x h hx
    · rw [h]
      exact fun e => hdot e.symm
  have h1 := hne '+' (by decide) (by decide)
  have h2 := hne '-' (by decide) (by decide)
  have h3 := hne 'i' (by decide) (by decide)
  have h4 := hne 'I' (by decide) (by decide)
  have h5 := hne 'n' (by decide) (by decide)
  have h6 := hne 'N' (by decide) (by decide)
  unfold special
  simp only [h1, h2, h3, h4, h5, h6, or_self, if_false]

theorem readDigits_cents (ds : List Char) (c1 c2 : Char)
    (hds : ∀ c ∈ ds, (decDigit c).isSome = true)
    (h1 : (decDigit c1).isSome = true) (h2 : (decDigit c2).isSome = true) :
    readDigits false ⟨false, false, 0, 0, false⟩ (ds ++ ['.', c1, c2]) =
      (⟨true, true, (digitsValue ds * 10 + (c1.toNat - 48)) * 10 + (c2.toNat - 48), 2, false⟩,
        []) := by
  rw [readDigits_digits ds hds, readDigits]
  have hdot : ('.' : Char) ≠ '_' := by decide
  simp only [hdot, if_false, if_true, Bool.false_eq_true]
  have h12 : ∀ c ∈ [c1, c2], (decDigit c).isSome = true := by
    intro c hc
    simp only [List.mem_cons, List.mem_singleton, List.not_mem_nil, or_false] at hc
    rcases hc with rfl | rfl
    · exact h1
    · exact h2
  have := readDigits_digits [c1, c2] h12
    ⟨true, false || !ds.isEmpty, List.foldl (fun n c => n * 10 + (c.toNat - 48)) 0 ds, 0, false⟩ []
  rw [List.append_nil] at this
  rw [this, readDigits]
  simp [digitsValue]

theorem readFloat_cents (ds : List Char) (c1 c2 : Char)
    (hds : ∀ c ∈ ds, (decDigit c).isSome = true)
    (h1 : (decDigit c1).isSome = true) (h2 : (decDigit c2).isSome = true) :
    readFloat (ds ++ ['.', c1, c2]) =
      some ⟨false, false, (digitsValue ds * 10 + (c1.toNat - 48)) * 10 + (c2.toNat - 48), -2⟩ := by
  have hx1 : c1 ≠ 'x' := digit_ne c1 'x' h1 (by decide)
  have hX1 : c1 ≠ 'X' := digit_ne c1 'X' h1 (by decide)
  have hhead : (ds ++ ['.', c1, c2]).head? ≠ some '+' ∧ (ds ++ ['.', c1, c2]).head? ≠ some '-' := by
    cases ds with
    | nil => simp
    | cons d ds =>
      have hd := hds d (List.mem_cons_self _ _)
      simp only [List.cons_append, List.head?_cons, ne_eq, Option.some.injEq]
      exact ⟨digit_ne d '+' hd (by decide), digit_ne d '-' hd (by decide)⟩
  have hsecond : (ds ++ ['.', c1, c2])[1]? ≠ some 'x' ∧ (ds ++ ['.', c1, c2])[1]? ≠ some 'X' := by
    cases ds with
    | nil => simp [hx1, hX1]
    | cons d ds =>
      cases ds with
      | nil => simp
      | cons d2 ds =>
        have hd := hds d2 (List.mem_cons_of_mem _ (List.mem_cons_self _ _))
        simp [digit_ne d2 'x' hd (by decide), digit_ne d2 'X' hd (by decide)]
  unfold readFloat
  simp only [hhead.1, hhead.2, hsecond.1, hsecond.2, or_self, and_false, if_false,
    decide_False, Bool.false_eq_true, readDigits_cents ds c1 c2 hds h1 h2]
  simp [finishFloat]

theorem parseFloat_cents (ds : List Char) (c1 c2 : Char)
    (hds : ∀ c ∈ ds, (decDigit c).isSome = true)
    (h1 : (decDigit c1).isSome = true) (h2 : (decDigit c2).isSome = true) (n : Int)
    (hn : roundF64 false ((digitsValue ds * 10 + (c1.toNat - 48)) * 10 + (c2.toNat - 48)) 100
      = .fin n) :
    ParseFloat (ds ++ ['.', c1, c2]) = (.fin n, none) := by
  have hsp : special (ds ++ ['.', c1, c2]) = none := by
    cases ds with
    | nil => exact special_of_digit_or_dot _ _ (Or.inr rfl)
    | cons d ds =>
      exact special_of_digit_or_dot _ _ (Or.inl (hds d (List.mem_cons_self _ _)))
  unfold ParseFloat
  rw [hsp, readFloat_cents ds c1 c2 hds h1 h2]
  simp only [FloatLit.toF64]
  have e : (10 : ℕ) ^ (-(-2 : Int)).toNat = 100 := by decide
  have hneg : ¬ (0 : Int) ≤ -2 := by decide
  rw [if_neg hneg, if_neg (by decide : ¬ (false = true)), e, hn]

theorem quarter_eq : quarter = .fin ((2 ^ 1072 : Nat) : Int) := by decide!

theorem rule3_of_fin_nat (total : String) (n : Nat)
    (h : (ParseFloat total.data).1 = .fin (n : Int)) :
    rule3 total = if 2 ^ 1072 ∣ n then 25 else 0 := by
  unfold rule3
  rw [h, quarter_eq]
  generalize hQ : (2 : ℕ) ^ 1072 = Q
  have hQpos : 0 < Q := by
    rw [← hQ]
    exact Nat.two_pow_pos _
  have hQ0 : ¬ ((Q : Int) = 0) := by omega
  simp only [F64.mod, hQ0, if_false, F64.eq]
  rw [← Int.ofNat_tmod]
  have key : (((n % Q : Nat) : Int) = 0) ↔ Q ∣ n := by
    constructor
    · intro e
      exact Nat.dvd_of_mod_eq_zero (Int.ofNat_eq_zero.1 e)
    · intro hd
      rw [Nat.mod_eq_zero_of_dvd hd]
      rfl
  simp only [decide_eq_true_eq, key]

theorem natCast_tdiv (n u : Nat) : (n : Int).tdiv (u : Int) = ((n / u : Nat) : Int) :=
  (Int.ofNat_tdiv n u).symm

theorem natCast_eq_div_mul (n u : Nat) : ((n : Int) = ((n / u * u : Nat) : Int)) ↔ u ∣ n := by
  constructor
  · intro e
    exact ⟨n / u, by rw [Nat.mul_comm]; exact Int.ofNat_inj.1 e⟩
  · intro hd
    rw [Nat.div_mul_cancel hd]

theorem f64ToIntDefined_nat (n : Nat) (hdiv : n / unit < 2 ^ 63) :
    f64ToIntDefined (.fin (n : Int)) = some ((n / unit : Nat) : Int) := by
  have h1 : -(2 ^ 63 : Int) ≤ ((n / unit : Nat) : Int) := by
    have : (0 : Int) ≤ ((n / unit : Nat) : Int) := Int.ofNat_nonneg _
    omega
  have h2 : ((n / unit : Nat) : Int) < 2 ^ 63 := by
    have : ((n / unit : Nat) : Int) < ((2 ^ 63 : Nat) : Int) := Int.ofNat_lt.2 hdiv
    have e : ((2 ^ 63 : Nat) : Int) = 2 ^ 63 := by decide
    omega
  simp only [f64ToIntDefined]
  rw [natCast_tdiv n unit]
  rw [if_pos ⟨h1, h2⟩]

theorem rule2_eq (oor : F64 → Int) (total : String) (x y : F64) (t : Int)
    (hx : (ParseFloat total.data).1 = x) (ht : f64ToIntDefined x = some t)
    (hy : intToF64 t = y) : rule2 oor total = if F64.eq x y = true then 50 else 0 := by
  unfold rule2 f64ToInt
  rw [hx, ht]
  simp only [hy]

theorem eq_fin_div_mul (n u : Nat) :
    (if F64.eq (.fin (n : Int)) (.fin ((n / u * u : Nat) : Int)) = true then (50 : Int) else 0)
      = if u ∣ n then 50 else 0 := by
  have key := natCast_eq_div_mul n u
  simp only [F64.eq, decide_eq_true_eq, key]

theorem div_unit_le (n : Nat) (hn : n ≤ 2 ^ 46 * unit) : n / unit ≤ 2 ^ 46 := by
  apply Nat.div_le_of_le_mul
  rw [Nat.mul_comm]
  exact hn

theorem rule2_of_fin_nat (oor : F64 → Int) (total : String) (n : Nat)
    (h : (ParseFloat total.data).1 = .fin (n : Int)) (hn : n ≤ 2 ^ 46 * unit) :
    rule2 oor total = if unit ∣ n then 50 else 0 :=
  (rule2_eq oor total _ _ _ h
    (f64ToIntDefined_nat n (lt_of_le_of_lt (div_unit_le n hn) (by decide)))
    (intToF64_nat _ (lt_of_le_of_lt (div_unit_le n hn) (by decide)))).trans
    (eq_fin_div_mul n unit)

/-- C8 as stated fails: the total "140737488355328.01" (2^47 dollars and one
cent) is read as the double 140737488355328, the doubles being 1/32 apart
there, so rule 2 contributes 50 and rule 3 contributes 25 although the cents
are 01; the conversion of this total to `int` is in range. -/
theorem two_decimals_counterexample :
    (ParseFloat "140737488355328.01".data).1 = (ParseFloat "140737488355328".data).1 ∧
    (f64ToIntDefined (ParseFloat "140737488355328.01".data).1).isSome = true ∧
    rule2 (fun _ => 0) "140737488355328.01" = 50 ∧ rule3 "140737488355328.01" = 25 := by
  refine ⟨by decide!, by decide!, by decide!, by decide!⟩

/-- C8 as amended: for a total written as digits `D`, a point and two digits
`CC`, with `D` below `2^46` (about 7 * 10^13), rule 2 contributes 50 when
`CC` is 00 and 0 otherwise, and rule 3 contributes 25 when `CC` is 00, 25,
50 or 75 and 0 otherwise, whatever an out-of-range conversion would give. -/
theorem rule2_rule3_two_decimals (oor : F64 → Int) (ds : List Char) (c1 c2 : Char)
    (hds : ∀ c ∈ ds, (decDigit c).isSome = true)
    (h1 : (decDigit c1).isSome = true) (h2 : (decDigit c2).isSome = true)
    (hD : digitsValue ds < 2 ^ 46) :
    rule2 oor (String.mk (ds ++ ['.', c1, c2])) =
      (if (c1.toNat - 48) * 10 + (c2.toNat - 48) = 0 then 50 else 0) ∧
    rule3 (String.mk (ds ++ ['.', c1, c2])) =
      (if ((c1.toNat - 48) * 10 + (c2.toNat - 48)) % 25 = 0 then 25 else 0) := by
  have b1 := (decDigit_some c1 h1).2
  have b2 := (decDigit_some c2 h2).2
  generalize hv1 : c1.toNat - 48 = v1 at *
  generalize hv2 : c2.toNat - 48 = v2 at *
  have hv1' : v1 ≤ 9 := by omega
  have hv2' : v2 ≤ 9 := by omega
  generalize hDv : digitsValue ds = D at *
  have hN : (D * 10 + v1) * 10 + v2 < 100 * 2 ^ 46 := by omega
  have hU4 : unit = 4 * 2 ^ 1072 := by
    unfold unit
    rw [show (1074 : ℕ) = 1072 + 2 by rfl, pow_add]
    ring
  by_cases h25 : 25 ∣ (D * 10 + v1) * 10 + v2
  · have hr := roundF64_cents_exact _ hN h25
    have hp := parseFloat_cents ds c1 c2 hds h1 h2 _ (by rw [hv1, hv2, hDv]; exact hr)
    have hp1 : (ParseFloat (String.mk (ds ++ ['.', c1, c2])).data).1 =
        .fin ((((D * 10 + v1) * 10 + v2) / 25 * 2 ^ 1072 : Nat) : Int) := by
      show (ParseFloat (ds ++ ['.', c1, c2])).1 = _
      rw [hp]
    have hle : ((D * 10 + v1) * 10 + v2) / 25 * 2 ^ 1072 ≤ 2 ^ 46 * unit := by
      rw [hU4]
      have : ((D * 10 + v1) * 10 + v2) / 25 ≤ 2 ^ 46 * 4 := by omega
      calc ((D * 10 + v1) * 10 + v2) / 25 * 2 ^ 1072 ≤ 2 ^ 46 * 4 * 2 ^ 1072 :=
            Nat.mul_le_mul_right _ this
        _ = 2 ^ 46 * (4 * 2 ^ 1072) := by ring
    rw [rule2_of_fin_nat oor _ _ hp1 hle, rule3_of_fin_nat _ _ hp1]
    have hq : (2:ℕ) ^ 1072 ∣ ((D * 10 + v1) * 10 + v2) / 25 * 2 ^ 1072 :=
      Dvd.intro_left _ rfl
    have hu : unit ∣ ((D * 10 + v1) * 10 + v2) / 25 * 2 ^ 1072 ↔ v1 * 10 + v2 = 0 := by
      rw [hU4]
      rw [Nat.mul_dvd_mul_iff_right (Nat.two_pow_pos _)]
      constructor
      · intro h4
        omega
      · intro h0
        omega
    have h25' : (v1 * 10 + v2) % 25 = 0 := by omega
    simp only [hq, hu, h25', if_true, and_self]
  · obtain ⟨n, hr, hnq, hnle⟩ := roundF64_cents_inexact _ hN h25
    have hp := parseFloat_cents ds c1 c2 hds h1 h2 _ (by rw [hv1, hv2, hDv]; exact hr)
    have hp1 : (ParseFloat (String.mk (ds ++ ['.', c1, c2])).data).1 = .fin (n : Int) := by
      show (ParseFloat (ds ++ ['.', c1, c2])).1 = _
      rw [hp]
    rw [rule2_of_fin_nat oor _ _ hp1 hnle, rule3_of_fin_nat _ _ hp1]
    have hu : ¬ unit ∣ n := by
      intro hd
      apply hnq
      rw [hU4] at hd
      exact Dvd.dvd.trans (Dvd.intro_left _ rfl) hd
    have h0 : ¬ (v1 * 10 + v2 = 0) := by
      intro h0
      apply h25
      omega
    have h25' : ¬ ((v1 * 10 + v2) % 25 = 0) := by
      intro h0
      apply h25
      omega
    simp only [hnq, hu, h0, h25', if_false, and_self]

/-- Witness of C8 as amended: the total "35.25". -/
theorem rule2_rule3_two_decimals_witness :
    (∀ c ∈ "35".data, (decDigit c).isSome = true) ∧ digitsValue "35".data < 2 ^ 46 ∧
    rule2 (fun _ => 0) "35.25" = 0 ∧ rule3 "35.25" = 25 := by
  have h := rule2_rule3_two_decimals (fun _ => 0) "35".data '2' '5' (by decide) (by decide)
    (by decide) (by decide)
  exact ⟨by decide, by decide, h.1, h.2⟩

/-! ## Non-negativity -/


theorem roundF64_false_cases (a b : Nat) :
    roundF64 false a b = .inf false ∨ ∃ m : Nat, roundF64 false a b = .fin (m : Int) := by
  unfold roundF64
  simp only [Bool.false_eq_true, if_false]
  split_ifs
  · exact Or.inl rfl
  · exact Or.inl rfl
  · exact Or.inr ⟨_, rfl⟩

theorem tdiv_ceil_nonneg (m u : Nat) : 0 ≤ (-((-(m : Int)) / (u : Int)) * (u : Int)).tdiv (u : Int) := by
  have h1 : (-(m : Int)) / (u : Int) ≤ 0 := by
    rcases Nat.eq_zero_or_pos u with hu | hu
    · rw [hu]
      simp
    · apply Int.ediv_le_of_le_mul
      · exact Int.ofNat_lt.2 hu
      · omega
  apply Int.tdiv_nonneg
  · apply Int.mul_nonneg
    · omega
    · exact Int.ofNat_nonneg _
  · exact Int.ofNat_nonneg _

theorem ceil_conv_nonneg (m : Nat) (t : Int)
    (h : f64ToIntDefined (F64.ceil (.fin (m : Int))) = some t) : 0 ≤ t := by
  simp only [F64.ceil, f64ToIntDefined] at h
  split_ifs at h
  rw [← Option.some.inj h]
  exact tdiv_ceil_nonneg m unit

theorem fifth_eq : fifth = .fin ((0x1999999999999A * 2 ^ 1019 : Nat) : Int) := by decide!

theorem itemBonus_nonneg (item : Item) (t : Int)
    (hp : F64.nonneg (ParseFloat item.Price.data).1 = true)
    (h : f64ToIntDefined (itemBonus item) = some t) : 0 ≤ t := by
  unfold itemBonus at h
  rw [fifth_eq] at h
  generalize hF : (0x1999999999999A * 2 ^ 1019 : Nat) = F at h
  have hFpos : 0 < F := by
    rw [← hF]
    exact Nat.mul_pos (by decide) (Nat.two_pow_pos _)
  cases hx : (ParseFloat item.Price.data).1 with
  | nan => rw [hx] at hp; simp [F64.nonneg] at hp
  | inf neg =>
    rw [hx] at hp h
    simp only [F64.nonneg, Bool.not_eq_true'] at hp
    have hF0 : ¬ ((F : Int) = 0) := by omega
    simp only [F64.mul, hF0, if_false, F64.ceil, f64ToIntDefined] at h
    simp at h
  | fin n =>
    rw [hx] at hp h
    simp only [F64.nonneg, decide_eq_true_eq] at hp
    have hnn : ¬ (n * (F : Int) < 0) := by
      have : 0 ≤ n * (F : Int) := Int.mul_nonneg hp (Int.ofNat_nonneg _)
      omega
    simp only [F64.mul, hnn, decide_False] at h
    rcases roundF64_false_cases (n * (F : Int)).natAbs (unit * unit) with hr | ⟨m, hr⟩
    · rw [hr] at h
      simp [F64.ceil, f64ToIntDefined] at h
    · rw [hr] at h
      exact ceil_conv_nonneg m t h

theorem f64ToInt_of_defined (oor : F64 → Int) (x : F64) (t : Int)
    (h : f64ToIntDefined x = some t) : f64ToInt oor x = t := by
  unfold f64ToInt
  rw [h]

theorem itemBonus_conv_nonneg (oor : F64 → Int) (item : Item)
    (hp : F64.nonneg (ParseFloat item.Price.data).1 = true)
    (hc : (f64ToIntDefined (itemBonus item)).isSome = true) :
    0 ≤ f64ToInt oor (itemBonus item) := by
  obtain ⟨t, ht⟩ := Option.isSome_iff_exists.1 hc
  rw [f64ToInt_of_defined oor _ t ht]
  exact itemBonus_nonneg item t hp ht

theorem rule5_nonneg (oor : F64 → Int) (items : List Item)
    (hprice : ∀ item ∈ items, F64.nonneg (ParseFloat item.Price.data).1 = true)
    (hconv : ∀ item ∈ items, qualifies item = true →
      (f64ToIntDefined (itemBonus item)).isSome = true) :
    0 ≤ rule5 oor items := by
  unfold rule5
  apply List.sum_nonneg
  intro x hx
  obtain ⟨item, hmem, rfl⟩ := List.mem_map.1 hx
  obtain ⟨hin, hq⟩ := List.mem_filter.1 hmem
  exact itemBonus_conv_nonneg oor item (hprice item hin) (hconv item hin hq)

/-- C6 as stated fails: with two qualifying items of price 4 * 10^19, each
worth `int(Ceil(price * 0.2))` = 8 * 10^18 (a conversion in range), the sum
exceeds the 64-bit `int` and wraps: the receipt scores a negative number,
although every price is non-negative and the date and time are well formed. -/
theorem nonneg_counterexample :
    (overflowReceipt.Items.all fun item =>
      F64.nonneg (ParseFloat item.Price.data).1 && qualifies item) = true ∧
    conversionsDefined overflowReceipt = true ∧
    (overflowReceipt.Items.map fun item => f64ToIntDefined (itemBonus item)) =
      [some 8000000000000000000, some 8000000000000000000] ∧
    rule6 overflowReceipt.PurchaseDate = some 0 ∧
    rule7 overflowReceipt.PurchaseTime = some 0 ∧
    calculatePoints (fun _ => 0) overflowReceipt = some (-2446744073709551530) := by
  refine ⟨by decide!, by decide!, by decide!, by decide!, by decide!, by decide!⟩

/-- C6 as amended: for a receipt whose date has a third field and whose time
has a second one, whose item prices are read as non-negative numbers, for
which the conversion `int(Ceil(price * 0.2))` of every item that takes part
in rule 5 is in the range of `int`, and for which the exact sum of the rules
stays below `2^63`, `calculatePoints` returns that sum, which is at least 0,
and no rule and no item contributes a negative amount. -/
theorem points_nonneg (oor : F64 → Int) (r : Receipt) (dayField minuteField : List Char)
    (hd : (stringsSplit '-' r.PurchaseDate.data)[2]? = some dayField)
    (ht : (stringsSplit ':' r.PurchaseTime.data)[1]? = some minuteField)
    (hprice : ∀ item ∈ r.Items, F64.nonneg (ParseFloat item.Price.data).1 = true)
    (hconv : ∀ item ∈ r.Items, qualifies item = true →
      (f64ToIntDefined (itemBonus item)).isSome = true)
    (hsum : rule1 r.Retailer + rule2 oor r.Total + rule3 r.Total + rule4 r.Items
      + rule5 oor r.Items + 16 < 2 ^ 63) :
    ∃ d t, rule6 r.PurchaseDate = some d ∧ rule7 r.PurchaseTime = some t ∧
      calculatePoints oor r =
        some (rule1 r.Retailer + rule2 oor r.Total + rule3 r.Total + rule4 r.Items
          + rule5 oor r.Items + d + t) ∧
      0 ≤ rule1 r.Retailer + rule2 oor r.Total + rule3 r.Total + rule4 r.Items
          + rule5 oor r.Items + d + t ∧
      0 ≤ rule1 r.Retailer ∧ 0 ≤ rule2 oor r.Total ∧ 0 ≤ rule3 r.Total ∧ 0 ≤ rule4 r.Items ∧
      0 ≤ rule5 oor r.Items ∧ 0 ≤ d ∧ 0 ≤ t ∧
      ∀ item ∈ r.Items, qualifies item = true → 0 ≤ f64ToInt oor (itemBonus item) := by
  obtain ⟨hourField, hh⟩ : ∃ f, (stringsSplit ':' r.PurchaseTime.data)[0]? = some f := by
    cases hl : stringsSplit ':' r.PurchaseTime.data with
    | nil => rw [hl] at ht; simp at ht
    | cons f fs => exact ⟨f, by simp⟩
  have h6 : rule6 r.PurchaseDate = some (if (Atoi dayField).1.tmod 2 ≠ 0 then 6 else 0) := by
    unfold rule6
    rw [hd]
  have h7 : rule7 r.PurchaseTime =
      some (if (Atoi hourField).1 = 14 ∨ ((Atoi hourField).1 = 15 ∧ (Atoi minuteField).1 < 60)
        then 10 else 0) := by
    unfold rule7
    rw [hh, ht]
  have h1 : 0 ≤ rule1 r.Retailer := by
    unfold rule1
    exact Int.ofNat_nonneg _
  have h2 : 0 ≤ rule2 oor r.Total ∧ rule2 oor r.Total ≤ 50 := by
    unfold rule2
    split_ifs <;> omega
  have h3 : 0 ≤ rule3 r.Total ∧ rule3 r.Total ≤ 25 := by
    unfold rule3
    split_ifs <;> omega
  have h4 : 0 ≤ rule4 r.Items := by
    unfold rule4
    exact Int.mul_nonneg (Int.ofNat_nonneg _) (by decide)
  have h5 := rule5_nonneg oor r.Items hprice hconv
  generalize hdv : (if (Atoi dayField).1.tmod 2 ≠ 0 then (6 : Int) else 0) = d at h6
  generalize htv : (if (Atoi hourField).1 = 14 ∨ ((Atoi hourField).1 = 15 ∧
    (Atoi minuteField).1 < 60) then (10 : Int) else 0) = t at h7
  have hdb : 0 ≤ d ∧ d ≤ 6 := by
    rw [← hdv]
    split_ifs <;> omega
  have htb : 0 ≤ t ∧ t ≤ 10 := by
    rw [← htv]
    split_ifs <;> omega
  refine ⟨d, t, h6, h7, ?_, by omega, h1, h2.1, h3.1, h4, h5, hdb.1, htb.1, ?_⟩
  · rw [calculatePoints_eq_rules, h6, h7]
    show some (wrap64 _) = _
    rw [wrap64_of_range _ (by omega) (by omega)]
  · intro item hin hq
    exact itemBonus_conv_nonneg oor item (hprice item hin) (hconv item hin hq)

/-- Witness of C6 as amended: scenario A. -/
theorem points_nonneg_witness :
    (stringsSplit '-' scenarioA.PurchaseDate.data)[2]? = some "02".data ∧
    (stringsSplit ':' scenarioA.PurchaseTime.data)[1]? = some "01".data ∧
    (scenarioA.Items.all fun item => F64.nonneg (ParseFloat item.Price.data).1) = true ∧
    conversionsDefined scenarioA = true ∧
    ∃ d t, rule6 scenarioA.PurchaseDate = some d ∧ rule7 scenarioA.PurchaseTime = some t ∧
      calculatePoints (fun _ => 0) scenarioA =
        some (rule1 scenarioA.Retailer + rule2 (fun _ => 0) scenarioA.Total
          + rule3 scenarioA.Total + rule4 scenarioA.Items
          + rule5 (fun _ => 0) scenarioA.Items + d + t) ∧
      0 ≤ rule1 scenarioA.Retailer + rule2 (fun _ => 0) scenarioA.Total
          + rule3 scenarioA.Total + rule4 scenarioA.Items
          + rule5 (fun _ => 0) scenarioA.Items + d + t := by
  have h := points_nonneg (fun _ => 0) scenarioA "02".data "01".data (by decide!) (by decide!)
    (by decide!) (by decide!) (by decide!)
  obtain ⟨d, t, h6, h7, hc, h0, _⟩ := h
  exact ⟨by decide!, by decide!, by decide!, by decide!, d, t, h6, h7, hc, h0⟩


/-! ## Splitting into fields -/

theorem stringsSplit_ne_nil (sep : Char) (s : List Char) : stringsSplit sep s ≠ [] := by
  induction s with
  | nil => simp [stringsSplit]
  | cons c cs ih =>
    unfold stringsSplit
    by_cases hc : c = sep
    · simp [hc]
    · rw [if_neg hc]
      cases h : stringsSplit sep cs with
      | nil => exact absurd h ih
      | cons f fs => simp

theorem stringsSplit_length (sep : Char) (s : List Char) :
    (stringsSplit sep s).length = s.count sep + 1 := by
  induction s with
  | nil => rfl
  | cons c cs ih =>
    unfold stringsSplit
    by_cases hc : c = sep
    · rw [if_pos hc, List.length_cons, ih, hc, List.count_cons_self]
    · rw [if_neg hc]
      have hcount : (c :: cs).count sep = cs.count sep := by
        rw [List.count_cons_of_ne (fun e => hc e.symm)]
      rw [hcount, ← ih]
      cases h : stringsSplit sep cs with
      | nil => exact absurd h (stringsSplit_ne_nil sep cs)
      | cons f fs => rfl

theorem stringsSplit_no_sep (sep : Char) (a : List Char) (ha : sep ∉ a) :
    stringsSplit sep a = [a] := by
  induction a with
  | nil => rfl
  | cons c cs ih =>
    have hc : c ≠ sep := fun e => ha (by rw [e]; exact List.mem_cons_self _ _)
    have hcs : sep ∉ cs := fun h => ha (List.mem_cons_of_mem _ h)
    unfold stringsSplit
    rw [if_neg hc, ih hcs]

theorem stringsSplit_append (sep : Char) (a rest : List Char) (ha : sep ∉ a) :
    stringsSplit sep (a ++ sep :: rest) = a :: stringsSplit sep rest := by
  induction a with
  | nil =>
    show stringsSplit sep (sep :: rest) = _
    rw [stringsSplit, if_pos rfl]
  | cons c cs ih =>
    have hc : c ≠ sep := fun e => ha (by rw [e]; exact List.mem_cons_self _ _)
    have hcs : sep ∉ cs := fun h => ha (List.mem_cons_of_mem _ h)
    rw [List.cons_append, stringsSplit, if_neg hc, ih hcs]

theorem getElem?_isSome_iff {α : Type} (l : List α) (i : Nat) :
    (l[i]?).isSome = true ↔ i < l.length := by
  rw [Option.isSome_iff_exists]
  constructor
  · rintro ⟨a, ha⟩
    exact (List.getElem?_eq_some.1 ha).1
  · intro h
    exact ⟨l[i], List.getElem?_eq_getElem h⟩

theorem rule6_isSome (date : String) :
    (rule6 date).isSome = true ↔ 3 ≤ (stringsSplit '-' date.data).length := by
  unfold rule6
  rw [show (3 ≤ (stringsSplit '-' date.data).length) ↔ 2 < (stringsSplit '-' date.data).length
    from Iff.rfl, ← getElem?_isSome_iff]
  cases (stringsSplit '-' date.data)[2]? <;> simp

theorem rule7_isSome (time : String) :
    (rule7 time).isSome = true ↔ 2 ≤ (stringsSplit ':' time.data).length := by
  unfold rule7
  rw [show (2 ≤ (stringsSplit ':' time.data).length) ↔ 1 < (stringsSplit ':' time.data).length
    from Iff.rfl, ← getElem?_isSome_iff]
  cases hl : stringsSplit ':' time.data with
  | nil => exact absurd hl (stringsSplit_ne_nil _ _)
  | cons f fs =>
    simp only [List.getElem?_cons_zero]
    cases (f :: fs)[1]? <;> simp

/-- C19: `calculatePoints` returns without the panic of an index out of
range exactly when the date splits on '-' into at least three fields and the
time splits on ':' into at least two; the number of fields is the number of
separators plus one; when both hold the result is the wrapped sum of the
rules, whatever the retailer, the total and the items. -/
theorem calculatePoints_total_iff (oor : F64 → Int) (r : Receipt) :
    ((calculatePoints oor r).isSome = true ↔
      3 ≤ (stringsSplit '-' r.PurchaseDate.data).length ∧
      2 ≤ (stringsSplit ':' r.PurchaseTime.data).length) ∧
    ((calculatePoints oor r).isSome = true ↔
      2 ≤ r.PurchaseDate.data.count '-' ∧ 1 ≤ r.PurchaseTime.data.count ':') ∧
    (stringsSplit '-' r.PurchaseDate.data).length = r.PurchaseDate.data.count '-' + 1 ∧
    (stringsSplit ':' r.PurchaseTime.data).length = r.PurchaseTime.data.count ':' + 1 ∧
    (3 ≤ (stringsSplit '-' r.PurchaseDate.data).length →
      2 ≤ (stringsSplit ':' r.PurchaseTime.data).length →
      ∃ d t, rule6 r.PurchaseDate = some d ∧ rule7 r.PurchaseTime = some t ∧
        calculatePoints oor r =
          some (wrap64 (rule1 r.Retailer + rule2 oor r.Total + rule3 r.Total + rule4 r.Items
            + rule5 oor r.Items + d + t))) := by
  have hiff : (calculatePoints oor r).isSome = true ↔
      3 ≤ (stringsSplit '-' r.PurchaseDate.data).length ∧
      2 ≤ (stringsSplit ':' r.PurchaseTime.data).length := by
    rw [← rule6_isSome, ← rule7_isSome, calculatePoints_eq_rules]
    cases rule6 r.PurchaseDate <;> cases rule7 r.PurchaseTime <;> simp
  have hl6 := stringsSplit_length '-' r.PurchaseDate.data
  have hl7 := stringsSplit_length ':' r.PurchaseTime.data
  refine ⟨hiff, ?_, hl6, hl7, ?_⟩
  · rw [hiff, hl6, hl7]
    omega
  · intro h3 h2
    obtain ⟨d, hd⟩ := Option.isSome_iff_exists.1 ((rule6_isSome _).2 h3)
    obtain ⟨t, ht⟩ := Option.isSome_iff_exists.1 ((rule7_isSome _).2 h2)
    refine ⟨d, t, hd, ht, ?_⟩
    rw [calculatePoints_eq_rules, hd, ht]
    rfl

/-! ## Rule 6 -/

theorem foldl_digits_ge (ds : List Char) :
    ∀ n : Nat, n ≤ ds.foldl (fun n c => n * 10 + (c.toNat - 48)) n := by
  induction ds with
  | nil => intro n; exact le_refl _
  | cons c cs ih =>
    intro n
    rw [List.foldl_cons]
    have := ih (n * 10 + (c.toNat - 48))
    omega

theorem parseUintLoop_digits (ds : List Char) (hds : ∀ c ∈ ds, (decDigit c).isSome = true) :
    ∀ n : Nat, ds.foldl (fun n c => n * 10 + (c.toNat - 48)) n < 2 ^ 64 →
      parseUintLoop n ds = (ds.foldl (fun n c => n * 10 + (c.toNat - 48)) n, none) := by
  induction ds with
  | nil => intro n _; rfl
  | cons c cs ih =>
    intro n hn
    rw [List.foldl_cons] at hn ⊢
    have hc := decDigit_some c (hds c (List.mem_cons_self _ _))
    have hge := foldl_digits_ge cs (n * 10 + (c.toNat - 48))
    have e64 : (2 : ℕ) ^ 64 = 18446744073709551616 := by norm_num
    rw [e64] at hn
    unfold parseUintLoop
    rw [hc.1]
    simp only [e64]
    rw [if_neg (by omega), if_neg (by omega)]
    exact ih (fun c hc => hds c (List.mem_cons_of_mem _ hc)) _ (by rw [e64]; exact hn)

theorem atoi_digits (ds : List Char) (hds : ∀ c ∈ ds, (decDigit c).isSome = true)
    (hne : ds ≠ []) (hval : digitsValue ds < 2 ^ 63) :
    Atoi ds = (((digitsValue ds : Nat) : Int), none) := by
  cases ds with
  | nil => exact absurd rfl hne
  | cons c cs =>
    have hc := hds c (List.mem_cons_self _ _)
    have h1 : c ≠ '+' := digit_ne c '+' hc (by decide)
    have h2 : c ≠ '-' := digit_ne c '-' hc (by decide)
    have e63 : (2 : ℕ) ^ 63 = 9223372036854775808 := by norm_num
    have hloop := parseUintLoop_digits (c :: cs) hds 0 (by
      have e64 : (2 : ℕ) ^ 64 = 18446744073709551616 := by norm_num
      have : digitsValue (c :: cs) < 2 ^ 63 := hval
      unfold digitsValue at this
      rw [e63] at this
      rw [e64]
      omega)
    unfold Atoi ParseInt
    simp only [h1, h2, or_self, if_false, decide_False, ParseUint, hloop]
    have hv : ¬ (2 ^ 63 ≤ digitsValue (c :: cs)) := by omega
    unfold digitsValue at hv
    simp [hv, digitsValue]
    simpa [digitsValue] using hval

/-- C11: for a date made of a year field, a month field and a day field
separated by '-', the day being a number written in decimal digits (a
leading zero allowed), `Atoi` reads the day as that number and rule 6
contributes 6 when it is odd and 0 when it is even. -/
theorem rule6_day_parity (y m d : List Char) (hy : '-' ∉ y) (hm : '-' ∉ m)
    (hd : ∀ c ∈ d, (decDigit c).isSome = true) (hne : d ≠ [])
    (hval : digitsValue d < 2 ^ 63) :
    (stringsSplit '-' (y ++ '-' :: (m ++ '-' :: d)))[2]? = some d ∧
    (Atoi d).1 = ((digitsValue d : Nat) : Int) ∧
    rule6 (String.mk (y ++ '-' :: (m ++ '-' :: d))) =
      some (if digitsValue d % 2 = 1 then 6 else 0) := by
  have hdash : '-' ∉ d := by
    intro h
    have := hd '-' h
    revert this
    decide
  have hsplit : stringsSplit '-' (y ++ '-' :: (m ++ '-' :: d)) = [y, m, d] := by
    rw [stringsSplit_append _ _ _ hy, stringsSplit_append _ _ _ hm,
      stringsSplit_no_sep _ _ hdash]
  have hat := atoi_digits d hd hne hval
  refine ⟨by rw [hsplit]; rfl, by rw [hat], ?_⟩
  unfold rule6
  simp only [hsplit, List.getElem?_cons_succ, List.getElem?_cons_zero, hat]
  have ht : ((digitsValue d : Nat) : Int).tmod 2 = ((digitsValue d % 2 : Nat) : Int) :=
    (Int.ofNat_tmod _ 2).symm
  rw [ht]
  congr 1
  by_cases hodd : digitsValue d % 2 = 1
  · rw [if_pos hodd, hodd]
    rfl
  · rw [if_neg hodd]
    have h0 : digitsValue d % 2 = 0 := by omega
    rw [h0]
    rfl

/-- Witness of C11: the dates "2022-03-15" and "2022-03-02". -/
theorem rule6_day_parity_witness :
    ('-' ∉ "2022".data) ∧ ('-' ∉ "03".data) ∧
    (∀ c ∈ "15".data, (decDigit c).isSome = true) ∧ digitsValue "15".data < 2 ^ 63 ∧
    rule6 "2022-03-15" = some 6 ∧ rule6 "2022-03-02" = some 0 ∧ rule6 "2022-03-07" = some 6 :=
  ⟨by decide, by decide, by decide, by decide,
    (rule6_day_parity "2022".data "03".data "15".data (by decide) (by decide) (by decide)
      (by decide) (by decide)).2.2,
    by decide, by decide⟩

/-! ## Rule 4 and the order of the items -/

/-- C12: rule 4 contributes `floor(n / 2) * 5` for `n` items, which is the
term of rule 4 in the score; one more item after an even number of items
earns nothing more, and no item or one item earn 0. -/
theorem rule4_pairs (oor : F64 → Int) (r : Receipt) :
    rule4 r.Items = ((r.Items.length / 2 : Nat) : Int) * 5 ∧
    calculatePoints oor r =
      ((rule6 r.PurchaseDate).bind fun d =>
        (rule7 r.PurchaseTime).bind fun t =>
          some (wrap64 (rule1 r.Retailer + rule2 oor r.Total + rule3 r.Total
            + ((r.Items.length / 2 : Nat) : Int) * 5 + rule5 oor r.Items + d + t))) ∧
    (∀ (items : List Item) (item : Item) (k : Nat), items.length = 2 * k →
      rule4 (items ++ [item]) = rule4 items ∧ rule4 items = (k : Int) * 5) ∧
    rule4 [] = 0 ∧ ∀ item : Item, rule4 [item] = 0 := by
  refine ⟨rfl, calculatePoints_eq_rules oor r, ?_, rfl, fun _ => by simp [rule4]⟩
  intro items item k hk
  unfold rule4
  rw [List.length_append, hk]
  have e1 : (2 * k + [item].length) / 2 = k := by
    simp only [List.length_singleton]
    omega
  have e2 : 2 * k / 2 = k := by omega
  rw [e1, e2]
  exact ⟨rfl, rfl⟩

/-- C14: permuting the items of a receipt changes neither rule 4 nor rule 5
nor the score. -/
theorem item_order_invariance (oor : F64 → Int) (r : Receipt) (items : List Item)
    (hp : items.Perm r.Items) :
    rule4 items = rule4 r.Items ∧ rule5 oor items = rule5 oor r.Items ∧
    calculatePoints oor { r with Items := items } = calculatePoints oor r := by
  have h4 : rule4 items = rule4 r.Items := by
    unfold rule4
    rw [hp.length_eq]
  have h5 : rule5 oor items = rule5 oor r.Items := by
    unfold rule5
    exact ((hp.filter _).map _).sum_eq
  refine ⟨h4, h5, ?_⟩
  rw [calculatePoints_eq_rules, calculatePoints_eq_rules]
  simp only [h4, h5]

/-- Witness of C14: scenario A with its two items exchanged. -/
theorem item_order_invariance_witness :
    ([⟨"abcdef", "6.00"⟩, ⟨"abc", "3.00"⟩] : List Item).Perm scenarioA.Items ∧
    calculatePoints (fun _ => 0)
      { scenarioA with Items := [⟨"abcdef", "6.00"⟩, ⟨"abc", "3.00"⟩] } =
      calculatePoints (fun _ => 0) scenarioA :=
  ⟨List.Perm.swap _ _ _,
    (item_order_invariance (fun _ => 0) scenarioA [⟨"abcdef", "6.00"⟩, ⟨"abc", "3.00"⟩]
      (List.Perm.swap _ _ _)).2.2⟩


/-! ## A price that does not parse -/

theorem rule5_cons (oor : F64 → Int) (item : Item) (items : List Item) :
    rule5 oor (item :: items) =
      (if qualifies item = true then f64ToInt oor (itemBonus item) else 0) + rule5 oor items := by
  unfold rule5
  by_cases hq : qualifies item = true
  · simp [List.filter_cons, hq]
  · simp [List.filter_cons, hq]

theorem rule5_append (oor : F64 → Int) (l1 l2 : List Item) :
    rule5 oor (l1 ++ l2) = rule5 oor l1 + rule5 oor l2 := by
  unfold rule5
  rw [List.filter_append, List.map_append, List.sum_append]

theorem bonus_of_zero : F64.ceil (F64.mul (.fin 0) fifth) = .fin 0 := by decide!

theorem itemBonus_malformed (oor : F64 → Int) (item : Item)
    (h : (ParseFloat item.Price.data).2 = some .malformed) :
    f64ToInt oor (itemBonus item) = 0 := by
  unfold itemBonus
  rw [parseFloat_malformed _ h, bonus_of_zero]
  unfold f64ToInt f64ToIntDefined
  simp

/-- C18 as stated fails for a price that is a number out of the range of
`float64`: "1e999" is rejected by `ParseFloat` with a range error and read
as `+Inf`, the bonus `Ceil(+Inf * 0.2)` is `+Inf`, and `int(+Inf)` is not
defined by Go: the item contributes whatever the platform gives, the
smallest `int` on amd64 and the largest on arm64. -/
theorem unparsable_price_counterexample :
    (ParseFloat (⟨"", "1e999"⟩ : Item).Price.data) = (.inf false, some .outOfRange) ∧
    qualifies ⟨"", "1e999"⟩ = true ∧
    itemBonus ⟨"", "1e999"⟩ = .inf false ∧
    f64ToIntDefined (itemBonus ⟨"", "1e999"⟩) = none ∧
    rule5 (fun _ => -(2 ^ 63)) [⟨"", "1e999"⟩] = -(2 ^ 63) ∧
    rule5 (fun _ => 2 ^ 63 - 1) [⟨"", "1e999"⟩] = 2 ^ 63 - 1 := by
  refine ⟨by decide!, by decide!, by decide!, by decide!, by decide!, by decide!⟩

/-- C18 as amended: an item whose price is malformed for `ParseFloat` (not
the text of a number) contributes 0 under rule 5 whatever its description,
rule 5 is what it is for the other items alone, and the score is the wrapped
sum of the unchanged other rules (rule 4 still counts the item) and of the
bonuses of the other items. -/
theorem malformed_price_contributes_zero (oor : F64 → Int) (item : Item)
    (h : (ParseFloat item.Price.data).2 = some .malformed) :
    f64ToInt oor (itemBonus item) = 0 ∧
    (∀ points : Int, itemStep oor (wrap64 points) item = wrap64 points) ∧
    (∀ l1 l2 : List Item, rule5 oor (l1 ++ item :: l2) = rule5 oor (l1 ++ l2)) ∧
    (∀ (r : Receipt) (l1 l2 : List Item), r.Items = l1 ++ item :: l2 →
      calculatePoints oor r =
        (rule6 r.PurchaseDate).bind fun d =>
          (rule7 r.PurchaseTime).bind fun t =>
            some (wrap64 (rule1 r.Retailer + rule2 oor r.Total + rule3 r.Total + rule4 r.Items
              + rule5 oor (l1 ++ l2) + d + t))) := by
  have h0 := itemBonus_malformed oor item h
  have h5 : ∀ l1 l2 : List Item, rule5 oor (l1 ++ item :: l2) = rule5 oor (l1 ++ l2) := by
    intro l1 l2
    rw [rule5_append, rule5_append, rule5_cons, h0]
    simp
  refine ⟨h0, ?_, h5, ?_⟩
  · intro points
    rw [itemStep_eq, h0]
    by_cases hq : qualifies item = true
    · rw [if_pos hq, Int.add_zero, wrap64_idem]
    · rw [if_neg hq]
  · intro r l1 l2 hr
    rw [calculatePoints_eq_rules]
    conv_lhs => rw [hr, h5, ← hr]

/-- Witness of C18 as amended: scenario A with a third item of price "abc"
and a description of three letters still scores 89 + 0 under rule 5; only
rule 4 does not change either, three items making one pair. -/
theorem malformed_price_contributes_zero_witness :
    (ParseFloat (⟨"xyz", "abc"⟩ : Item).Price.data).2 = some .malformed ∧
    qualifies ⟨"xyz", "abc"⟩ = true ∧
    f64ToInt (fun _ => 0) (itemBonus ⟨"xyz", "abc"⟩) = 0 ∧
    calculatePoints (fun _ => 0)
      { scenarioA with Items := scenarioA.Items ++ [⟨"xyz", "abc"⟩] } = some 89 :=
  ⟨by decide!, by decide!,
    (malformed_price_contributes_zero (fun _ => 0) ⟨"xyz", "abc"⟩ (by decide!)).1,
    by decide!⟩


/-! ## Rule 2 implies rule 3 -/

theorem wrap64_range (x : Int) : -(2 ^ 63) ≤ wrap64 x ∧ wrap64 x < 2 ^ 63 := by
  unfold wrap64
  omega

theorem f64ToInt_range (oor : F64 → Int) (x : F64) :
    -(2 ^ 63) ≤ f64ToInt oor x ∧ f64ToInt oor x < 2 ^ 63 := by
  unfold f64ToInt
  cases h : f64ToIntDefined x with
  | none => exact wrap64_range _
  | some t =>
    simp only
    cases x with
    | nan => simp [f64ToIntDefined] at h
    | inf neg => simp [f64ToIntDefined] at h
    | fin n =>
      simp only [f64ToIntDefined] at h
      split_ifs at h with hc
      rw [← Option.some.inj h]
      exact hc

theorem roundUnits_int (a : Nat) (ha : a ≤ 2 ^ 63) :
    ∃ k : Nat, roundUnits a 1 = k * unit ∧ k ≤ 2 ^ 64 := by
  have hq : a * unit < 2 ^ (53 + 2100) := by
    have h1 : a * unit ≤ 2 ^ 63 * unit := Nat.mul_le_mul_right _ ha
    have h2 : 2 ^ 63 * unit < 2 ^ (53 + 2100) := by
      unfold unit
      rw [← pow_add]
      exact Nat.pow_lt_pow_right (by decide) (by decide)
    omega
  obtain ⟨h0, h1⟩ := binadeShift_spec 2100 (a * unit) hq
  by_cases hs : binadeShift 2100 (a * unit) ≤ 1074
  · refine ⟨a, ?_, by omega⟩
    apply roundUnits_exact a 1 (a * unit) (by decide) (by ring)
    have hdvd : 2 ^ binadeShift 2100 (a * unit) ∣ unit := by
      unfold unit
      exact Nat.pow_dvd_pow 2 hs
    exact Dvd.dvd.mul_left hdvd a
  · have hbig : 2 ^ 53 ≤ a * unit := by
      by_contra hlt
      rw [h0 (by omega)] at hs
      exact hs (Nat.zero_le _)
    obtain ⟨hlo, _⟩ := h1 hbig
    generalize hsdef : binadeShift 2100 (a * unit) = s at hs hlo
    have h2s : (2 : ℕ) ^ s = 2 ^ (s - 1074) * unit := by
      have hp : (2 : ℕ) ^ ((s - 1074) + 1074) = 2 ^ (s - 1074) * 2 ^ 1074 := pow_add _ _ _
      have e : (s - 1074) + 1074 = s := by omega
      rw [e] at hp
      exact hp
    have hround : roundUnits a 1 = roundHalfEven (a * unit) (1 * 2 ^ s) * 2 ^ s := by
      unfold roundUnits
      simp only [Nat.div_one, hsdef]
    have hb := (roundHalfEven_bounds (a * unit) (1 * 2 ^ s)).2
    generalize roundHalfEven (a * unit) (1 * 2 ^ s) = m at hround hb
    refine ⟨m * 2 ^ (s - 1074), ?_, ?_⟩
    · rw [hround, h2s]
      ring
    · -- m * 2^s ≤ a * unit + 2^s ≤ 2 * (a * unit)
      have hpos : 0 < 2 ^ s := Nat.two_pow_pos _
      have hdm : a * unit / (1 * 2 ^ s) * (1 * 2 ^ s) ≤ a * unit := Nat.div_mul_le_self _ _
      have hle : m * 2 ^ s ≤ a * unit + 2 ^ s := by
        have : m * 2 ^ s ≤ (a * unit / (1 * 2 ^ s) + 1) * 2 ^ s := Nat.mul_le_mul_right _ hb
        rw [Nat.one_mul] at hdm this
        have e : (a * unit / 2 ^ s + 1) * 2 ^ s = a * unit / 2 ^ s * 2 ^ s + 2 ^ s := by ring
        omega
      have hsle : 2 ^ s ≤ a * unit := by
        have : (2 : ℕ) ^ s ≤ 2 ^ (52 + s) := Nat.pow_le_pow_right (by decide) (by omega)
        omega
      have hfin : m * 2 ^ (s - 1074) * unit ≤ 2 ^ 64 * unit := by
        have e : m * 2 ^ (s - 1074) * unit = m * 2 ^ s := by
          rw [h2s]
          ring
        have h264 : (2 : ℕ) ^ 64 * unit = 2 * (2 ^ 63 * unit) := by ring
        have h1 : a * unit ≤ 2 ^ 63 * unit := Nat.mul_le_mul_right _ ha
        rw [e, h264]
        omega
      exact Nat.le_of_mul_le_mul_right hfin unit_pos

theorem cast_neg_mul (k u : Nat) : -((k * u : Nat) : Int) = -(k : Int) * (u : Int) := by
  rw [Nat.cast_mul]
  ring

theorem intToF64_multiple (i : Int) (h1 : -(2 ^ 63) ≤ i) (h2 : i < 2 ^ 63) :
    ∃ k : Int, intToF64 i = .fin (k * (unit : Int)) := by
  have ha : i.natAbs ≤ 2 ^ 63 := by omega
  obtain ⟨k, hk, hk64⟩ := roundUnits_int i.natAbs ha
  have hlt : k * unit < overflowUnits := by
    rw [overflowUnits_eq]
    exact Nat.mul_lt_mul_of_pos_right
      (lt_of_le_of_lt hk64 (Nat.pow_lt_pow_right (by decide) (by decide))) unit_pos
  have hq : ¬ overflowUnits ≤ i.natAbs * unit / 1 := by
    rw [Nat.div_one, overflowUnits_eq]
    have : i.natAbs * unit ≤ 2 ^ 63 * unit := Nat.mul_le_mul_right _ ha
    have : 2 ^ 63 * unit < 2 ^ 1024 * unit :=
      Nat.mul_lt_mul_of_pos_right (Nat.pow_lt_pow_right (by decide) (by decide)) unit_pos
    omega
  unfold intToF64 roundF64
  rw [if_neg hq, hk, if_neg (by omega)]
  by_cases hneg : i < 0
  · refine ⟨-(k : Int), ?_⟩
    rw [decide_eq_true hneg, if_pos rfl, cast_neg_mul]
  · refine ⟨(k : Int), ?_⟩
    rw [decide_eq_false hneg, if_neg (by decide), Nat.cast_mul]

theorem rule3_of_multiple (total : String) (k : Int)
    (h : (ParseFloat total.data).1 = .fin (k * (unit : Int))) : rule3 total = 25 := by
  unfold rule3
  rw [h, quarter_eq]
  have hU : (unit : Int) = 4 * ((2 ^ 1072 : Nat) : Int) := by
    have : unit = 4 * 2 ^ 1072 := by
      unfold unit
      rw [show (1074 : ℕ) = 1072 + 2 by rfl, pow_add]
      ring
    rw [this]
    push_cast
    ring
  rw [hU]
  have hpos : 0 < (2 : ℕ) ^ 1072 := Nat.two_pow_pos _
  generalize (2 : ℕ) ^ 1072 = Qn at hpos
  have hQ : ¬ ((Qn : Int) = 0) := by omega
  have hmod : (k * (4 * (Qn : Int))).tmod (Qn : Int) = 0 := by
    rw [show k * (4 * (Qn : Int)) = (k * 4) * (Qn : Int) by ring]
    exact Int.mul_tmod_left _ _
  simp only [F64.mod, hQ, if_false, hmod, F64.eq, decide_True, if_true]

/-- C20: for every total, when rule 2 contributes its 50 points rule 3
contributes its 25 points, so the two rules together contribute 0, 25 or 75
and never 50, whatever an out-of-range conversion gives. -/
theorem rule2_implies_rule3 (oor : F64 → Int) (total : String) :
    (rule2 oor total = 50 → rule3 total = 25) ∧
    (rule2 oor total + rule3 total = 0 ∨ rule2 oor total + rule3 total = 25 ∨
      rule2 oor total + rule3 total = 75) ∧
    rule2 oor total + rule3 total ≠ 50 := by
  have himp : rule2 oor total = 50 → rule3 total = 25 := by
    intro h50
    have hr := f64ToInt_range oor (ParseFloat total.data).1
    obtain ⟨k, hk⟩ := intToF64_multiple _ hr.1 hr.2
    have heq : F64.eq (ParseFloat total.data).1
        (intToF64 (f64ToInt oor (ParseFloat total.data).1)) = true := by
      by_contra hne
      unfold rule2 at h50
      rw [if_neg hne] at h50
      exact absurd h50 (by decide)
    rw [hk] at heq
    cases hx : (ParseFloat total.data).1 with
    | nan => rw [hx] at heq; simp [F64.eq] at heq
    | inf neg => rw [hx] at heq; simp [F64.eq] at heq
    | fin n =>
      rw [hx] at heq
      simp only [F64.eq, decide_eq_true_eq] at heq
      exact rule3_of_multiple total k (by rw [hx, heq])
  have h2 : rule2 oor total = 50 ∨ rule2 oor total = 0 := by
    unfold rule2
    split_ifs
    · exact Or.inl rfl
    · exact Or.inr rfl
  have h3 : rule3 total = 25 ∨ rule3 total = 0 := by
    unfold rule3
    split_ifs
    · exact Or.inl rfl
    · exact Or.inr rfl
  refine ⟨himp, ?_, ?_⟩
  · rcases h2 with h | h
    · have := himp h
      omega
    · rcases h3 with h' | h' <;> omega
  · rcases h2 with h | h
    · have := himp h
      omega
    · rcases h3 with h' | h' <;> omega


/-! ## The score as the sum of the rules -/

theorem wrap64_sub (a b : Int) : wrap64 (wrap64 a - wrap64 b) = wrap64 (a - b) := by
  unfold wrap64
  omega

theorem calculatePoints_some (oor : F64 → Int) (r : Receipt) (p : Int)
    (h : calculatePoints oor r = some p) :
    ∃ d t, rule6 r.PurchaseDate = some d ∧ rule7 r.PurchaseTime = some t ∧
      p = wrap64 (rule1 r.Retailer + rule2 oor r.Total + rule3 r.Total + rule4 r.Items
        + rule5 oor r.Items + d + t) := by
  rw [calculatePoints_eq_rules] at h
  cases h6 : rule6 r.PurchaseDate with
  | none => rw [h6] at h; simp at h
  | some d =>
    cases h7 : rule7 r.PurchaseTime with
    | none => rw [h6, h7] at h; simp at h
    | some t =>
      rw [h6, h7] at h
      exact ⟨d, t, rfl, rfl, (Option.some.inj h).symm⟩

/-- C13 as stated fails: on the receipt with two items of price 4 * 10^19
the seven rules sum to 16000000000000000086 while `calculatePoints` returns
that sum wrapped to 64 bits, a negative number; and with the date "20220315"
`calculatePoints` returns nothing at all, rule 6 having no field to read. -/
theorem rule_sum_counterexample :
    rule6 overflowReceipt.PurchaseDate = some 0 ∧ rule7 overflowReceipt.PurchaseTime = some 0 ∧
    rule1 overflowReceipt.Retailer + rule2 (fun _ => 0) overflowReceipt.Total
      + rule3 overflowReceipt.Total + rule4 overflowReceipt.Items
      + rule5 (fun _ => 0) overflowReceipt.Items + 0 + 0 = 16000000000000000086 ∧
    calculatePoints (fun _ => 0) overflowReceipt = some (-2446744073709551530) ∧
    rule6 (withDate "20220315").PurchaseDate = none ∧
    calculatePoints (fun _ => 0) (withDate "20220315") = none := by
  refine ⟨by decide!, by decide!, by decide!, by decide!, by decide!, by decide!⟩

/-- C13 as amended: `calculatePoints` returns a score exactly when rule 6
and rule 7 have their fields, and the score is then the sum of the seven
rules, each a function of one field, wrapped to the 64-bit `int` (the sum
itself when it is in range). Hence, for two receipts with a score that
differ in one field only, the difference of the scores is, up to that wrap,
the difference of the contributions of the rules reading that field. -/
theorem rule_independence (oor : F64 → Int) (r : Receipt) :
    calculatePoints oor r =
      ((rule6 r.PurchaseDate).bind fun d =>
        (rule7 r.PurchaseTime).bind fun t =>
          some (wrap64 (rule1 r.Retailer + rule2 oor r.Total + rule3 r.Total + rule4 r.Items
            + rule5 oor r.Items + d + t))) ∧
    (∀ x : Int, -(2 ^ 63) ≤ x → x < 2 ^ 63 → wrap64 x = x) ∧
    (∀ (retailer : String) (p p' : Int), calculatePoints oor r = some p →
      calculatePoints oor { r with Retailer := retailer } = some p' →
      wrap64 (p' - p) = wrap64 (rule1 retailer - rule1 r.Retailer)) ∧
    (∀ (total : String) (p p' : Int), calculatePoints oor r = some p →
      calculatePoints oor { r with Total := total } = some p' →
      wrap64 (p' - p) =
        wrap64 ((rule2 oor total + rule3 total) - (rule2 oor r.Total + rule3 r.Total))) ∧
    (∀ (items : List Item) (p p' : Int), calculatePoints oor r = some p →
      calculatePoints oor { r with Items := items } = some p' →
      wrap64 (p' - p) =
        wrap64 ((rule4 items + rule5 oor items) - (rule4 r.Items + rule5 oor r.Items))) ∧
    (∀ (date : String) (p p' d d' : Int), calculatePoints oor r = some p →
      calculatePoints oor { r with PurchaseDate := date } = some p' →
      rule6 r.PurchaseDate = some d → rule6 date = some d' →
      wrap64 (p' - p) = wrap64 (d' - d)) ∧
    (∀ (time : String) (p p' t t' : Int), calculatePoints oor r = some p →
      calculatePoints oor { r with PurchaseTime := time } = some p' →
      rule7 r.PurchaseTime = some t → rule7 time = some t' →
      wrap64 (p' - p) = wrap64 (t' - t)) := by
  refine ⟨calculatePoints_eq_rules oor r, wrap64_of_range, ?_, ?_, ?_, ?_, ?_⟩
  · intro retailer p p' hp hp'
    obtain ⟨d, t, h6, h7, rfl⟩ := calculatePoints_some oor r p hp
    obtain ⟨d', t', h6', h7', rfl⟩ := calculatePoints_some oor _ p' hp'
    simp only at h6' h7'
    rw [h6] at h6'
    rw [h7] at h7'
    obtain rfl := Option.some.inj h6'
    obtain rfl := Option.some.inj h7'
    rw [wrap64_sub]
    congr 1
    simp only
    ring
  · intro total p p' hp hp'
    obtain ⟨d, t, h6, h7, rfl⟩ := calculatePoints_some oor r p hp
    obtain ⟨d', t', h6', h7', rfl⟩ := calculatePoints_some oor _ p' hp'
    simp only at h6' h7'
    rw [h6] at h6'
    rw [h7] at h7'
    obtain rfl := Option.some.inj h6'
    obtain rfl := Option.some.inj h7'
    rw [wrap64_sub]
    congr 1
    simp only
    ring
  · intro items p p' hp hp'
    obtain ⟨d, t, h6, h7, rfl⟩ := calculatePoints_some oor r p hp
    obtain ⟨d', t', h6', h7', rfl⟩ := calculatePoints_some oor _ p' hp'
    simp only at h6' h7'
    rw [h6] at h6'
    rw [h7] at h7'
    obtain rfl := Option.some.inj h6'
    obtain rfl := Option.some.inj h7'
    rw [wrap64_sub]
    congr 1
    simp only
    ring
  · intro date p p' d d' hp hp' hd hd'
    obtain ⟨d1, t, h6, h7, rfl⟩ := calculatePoints_some oor r p hp
    obtain ⟨d1', t', h6', h7', rfl⟩ := calculatePoints_some oor _ p' hp'
    simp only at h6' h7'
    rw [hd] at h6
    rw [hd'] at h6'
    rw [h7] at h7'
    obtain rfl := Option.some.inj h6
    obtain rfl := Option.some.inj h6'
    obtain rfl := Option.some.inj h7'
    rw [wrap64_sub]
    congr 1
    simp only
    ring
  · intro time p p' t t' hp hp' ht ht'
    obtain ⟨d, t1, h6, h7, rfl⟩ := calculatePoints_some oor r p hp
    obtain ⟨d', t1', h6', h7', rfl⟩ := calculatePoints_some oor _ p' hp'
    simp only at h6' h7'
    rw [h6] at h6'
    rw [ht] at h7
    rw [ht'] at h7'
    obtain rfl := Option.some.inj h6'
    obtain rfl := Option.some.inj h7
    obtain rfl := Option.some.inj h7'
    rw [wrap64_sub]
    congr 1
    simp only
    ring

/-! ## The store -/

theorem trimPrefix_append (p s : List Char) : TrimPrefix (p ++ s) p = s := by
  unfold TrimPrefix
  have h : p.isPrefixOf (p ++ s) = true := by
    induction p with
    | nil => simp
    | cons c cs ih => simp [List.isPrefixOf, ih]
  rw [if_pos h]
  simp

theorem getPointsHandler_path (oor : F64 → Int) (s : Store) (id : String) :
    getPointsHandler oor s (pointsPath id) =
      match s.get id with
      | none => (s, .notFound)
      | some receipt =>
        match calculatePoints oor receipt with
        | none => (s, .panicked)
        | some points => (s, .points points) := by
  unfold getPointsHandler pointsPath
  have h : String.mk (TrimPrefix ("/receipts/" ++ id).data "/receipts/".data) = id := by
    rw [String.data_append, trimPrefix_append]
  simp only [h]

theorem getPointsHandler_store (oor : F64 → Int) (s : Store) (path : String) :
    (getPointsHandler oor s path).1 = s := by
  unfold getPointsHandler
  simp only
  split
  · rfl
  · split <;> rfl

/-- C15: after `processReceiptHandler` has stored `r` and returned `id`, the
read `receipts[id]` finds exactly `r`, and `getPointsHandler` on the path of
`id` reports `calculatePoints(r)` (or answers nothing when that panics) and
leaves the store as it is. -/
theorem store_round_trip (oor : F64 → Int) (s : Store) (id0 : String) (r : Receipt) :
    (processReceiptHandler s id0 r).2 = id0 ∧
    (processReceiptHandler s id0 r).1.get (processReceiptHandler s id0 r).2 = some r ∧
    getPointsHandler oor (processReceiptHandler s id0 r).1
        (pointsPath (processReceiptHandler s id0 r).2) =
      ((processReceiptHandler s id0 r).1,
        match calculatePoints oor r with
        | none => Response.panicked
        | some points => Response.points points) := by
  have hget : (processReceiptHandler s id0 r).1.get id0 = some r := by
    simp [processReceiptHandler, Store.get, Store.put]
  refine ⟨rfl, hget, ?_⟩
  rw [getPointsHandler_path]
  show (match (processReceiptHandler s id0 r).1.get id0 with
    | none => _
    | some receipt => _) = _
  rw [hget]
  simp only
  cases calculatePoints oor r <;> rfl

theorem put_get (s : Store) (id k : String) (r : Receipt) :
    (s.put id r).get k = if k = id then some r else s.get k := rfl

theorem registerAll_get (regs : List (String × Receipt)) (id : String) :
    ∀ s : Store, ((registerAll s regs).get id).isSome = true ↔
      (s.get id).isSome = true ∨ id ∈ regs.map Prod.fst := by
  induction regs with
  | nil =>
    intro s
    simp [registerAll]
  | cons p ps ih =>
    intro s
    have h := ih (processReceiptHandler s p.1 p.2).1
    unfold registerAll at h ⊢
    rw [List.foldl_cons, h]
    show ((s.put p.1 p.2).get id).isSome = true ∨ _ ↔ _
    rw [put_get]
    by_cases hid : id = p.1
    · simp [hid]
    · simp [hid]

/-- C16: in the store reached from the empty map by any list of
registrations, the read of an identifier finds a receipt exactly when some
registration returned that identifier; for every other identifier
`getPointsHandler` answers not found, and it answers not found only for
those. -/
theorem unknown_id_not_found (oor : F64 → Int) (regs : List (String × Receipt)) (id : String) :
    (((registerAll Store.empty regs).get id).isSome = true ↔ id ∈ regs.map Prod.fst) ∧
    ((registerAll Store.empty regs).get id = none ↔ id ∉ regs.map Prod.fst) ∧
    ((getPointsHandler oor (registerAll Store.empty regs) (pointsPath id)).2 = .notFound ↔
      id ∉ regs.map Prod.fst) := by
  have h1 : ((registerAll Store.empty regs).get id).isSome = true ↔ id ∈ regs.map Prod.fst := by
    rw [registerAll_get]
    simp [Store.empty, Store.get]
  have h2 : (registerAll Store.empty regs).get id = none ↔ id ∉ regs.map Prod.fst := by
    rw [← h1]
    cases (registerAll Store.empty regs).get id <;> simp
  refine ⟨h1, h2, ?_⟩
  rw [← h2, getPointsHandler_path]
  cases hg : (registerAll Store.empty regs).get id with
  | none => simp
  | some receipt =>
    simp only
    cases calculatePoints oor receipt <;> simp

theorem handle_get (oor : F64 → Int) (s : Store) (q : Request) (id : String)
    (hq : q.registered ≠ some id) : (handle oor s q).get id = s.get id := by
  cases q with
  | register id' receipt =>
    have hne : id ≠ id' := by
      intro e
      apply hq
      rw [e]
      rfl
    show (s.put id' receipt).get id = _
    rw [put_get, if_neg hne]
  | lookup path =>
    show (getPointsHandler oor s path).1.get id = _
    rw [getPointsHandler_store]

/-- C17: a registration under another identifier leaves the entry of every
other identifier as it was, a lookup leaves the whole store as it was, and
so, once `id` is mapped to `r`, after any sequence of lookups and of
registrations under identifiers other than `id` the read of `id` still finds
`r` and `getPointsHandler` still reports `calculatePoints(r)`. -/
theorem write_once_store (oor : F64 → Int) (s : Store) (id : String) (r : Receipt)
    (reqs : List Request) (hs : s.get id = some r)
    (hfresh : ∀ q ∈ reqs, q.registered ≠ some id) :
    (∀ (s' : Store) (id' : String) (r' : Receipt) (k : String), k ≠ id' →
      (processReceiptHandler s' id' r').1.get k = s'.get k) ∧
    (∀ (s' : Store) (path : String), (getPointsHandler oor s' path).1 = s') ∧
    (reqs.foldl (handle oor) s).get id = some r ∧
    (getPointsHandler oor (reqs.foldl (handle oor) s) (pointsPath id)).2 =
      (match calculatePoints oor r with
        | none => Response.panicked
        | some points => Response.points points) := by
  have hkeep : ∀ (reqs : List Request) (s : Store), s.get id = some r →
      (∀ q ∈ reqs, q.registered ≠ some id) → (reqs.foldl (handle oor) s).get id = some r := by
    intro reqs
    induction reqs with
    | nil => intro s hs _; exact hs
    | cons q qs ih =>
      intro s hs hf
      rw [List.foldl_cons]
      apply ih
      · rw [handle_get oor s q id (hf q (List.mem_cons_self _ _))]
        exact hs
      · intro q' hq'
        exact hf q' (List.mem_cons_of_mem _ hq')
  have hfinal := hkeep reqs s hs hfresh
  refine ⟨?_, getPointsHandler_store oor, hfinal, ?_⟩
  · intro s' id' r' k hk
    show (s'.put id' r').get k = _
    rw [put_get, if_neg hk]
  · rw [getPointsHandler_path, hfinal]
    simp only
    cases calculatePoints oor r <;> rfl

/-- Witness of C17: scenario A under "a", then scenario B under "b" and a
lookup of "a". -/
theorem write_once_store_witness :
    (processReceiptHandler Store.empty "a" scenarioA).1.get "a" = some scenarioA ∧
    (∀ q ∈ [Request.register "b" scenarioB, Request.lookup (pointsPath "a")],
      q.registered ≠ some "a") ∧
    ([Request.register "b" scenarioB, Request.lookup (pointsPath "a")].foldl
      (handle (fun _ => 0)) (processReceiptHandler Store.empty "a" scenarioA).1).get "a"
      = some scenarioA := by
  have h1 : (processReceiptHandler Store.empty "a" scenarioA).1.get "a" = some scenarioA := rfl
  have h2 : ∀ q ∈ [Request.register "b" scenarioB, Request.lookup (pointsPath "a")],
      q.registered ≠ some "a" := by
    intro q hq
    simp only [List.mem_cons, List.mem_singleton, List.not_mem_nil, or_false] at hq
    rcases hq with rfl | rfl
    · simp [Request.registered]
    · simp [Request.registered]
  exact ⟨h1, h2, (write_once_store (fun _ => 0) _ "a" scenarioA _ h1 h2).2.2.1⟩

/-! ## Rule 5: which items take part -/


theorem dropWhile_append_all {α : Type} (p : α → Bool) (ws l : List α)
    (h : ∀ c ∈ ws, p c = true) : (ws ++ l).dropWhile p = l.dropWhile p := by
  induction ws with
  | nil => rfl
  | cons w ws ih =>
    rw [List.cons_append, List.dropWhile_cons, h w (List.mem_cons_self _ _)]
    exact ih (fun c hc => h c (List.mem_cons_of_mem _ hc))

theorem dropWhile_head_false {α : Type} (p : α → Bool) (l : List α)
    (h : ∀ c, l.head? = some c → p c = false) : l.dropWhile p = l := by
  cases l with
  | nil => rfl
  | cons c cs =>
    rw [List.dropWhile_cons, h c rfl]
    rfl

theorem trimSpace_core (ws1 core ws2 : List Char)
    (h1 : ∀ c ∈ ws1, isSpace c = true) (h2 : ∀ c ∈ ws2, isSpace c = true)
    (hfirst : ∀ c, core.head? = some c → isSpace c = false)
    (hlast : ∀ c, core.getLast? = some c → isSpace c = false) :
    TrimSpace (ws1 ++ core ++ ws2) = core := by
  unfold TrimSpace
  cases hcore : core with
  | nil =>
    have hall : ∀ c ∈ ws1 ++ [] ++ ws2, isSpace c = true := by
      intro c hc
      simp only [List.append_nil, List.mem_append] at hc
      rcases hc with hc | hc
      · exact h1 c hc
      · exact h2 c hc
    rw [List.dropWhile_eq_nil_iff.2 hall]
    rfl
  | cons x xs =>
    rw [← hcore, List.append_assoc, dropWhile_append_all _ _ _ h1]
    have hne : isSpace x = false := hfirst x (by rw [hcore]; rfl)
    have hd : (core ++ ws2).dropWhile isSpace = core ++ ws2 := by
      apply dropWhile_head_false
      intro c hc
      rw [hcore] at hc
      exact hfirst c (by rw [hcore]; exact hc)
    rw [hd, List.reverse_append,
      dropWhile_append_all _ _ _ (fun c hc => h2 c (List.mem_reverse.1 hc))]
    have hr : core.reverse.dropWhile isSpace = core.reverse := by
      apply dropWhile_head_false
      intro c hc
      rw [List.head?_reverse] at hc
      exact hlast c hc
    rw [hr, List.reverse_reverse]

theorem len_ascii (s : List Char) (h : ∀ c ∈ s, c.toNat < 128) : len s = s.length := by
  induction s with
  | nil => rfl
  | cons c cs ih =>
    have hc : c.toNat < 128 := h c (List.mem_cons_self _ _)
    have h1 : c.utf8Size = 1 := by
      have hle : c.val ≤ UInt32.ofNatCore 127 (by decide) := by
        show c.val.toNat ≤ 127
        have : c.val.toNat = c.toNat := rfl
        omega
      unfold Char.utf8Size
      exact if_pos hle
    have ih' := ih (fun c hc => h c (List.mem_cons_of_mem _ hc))
    unfold len at ih' ⊢
    rw [List.map_cons, List.sum_cons, ih', h1, List.length_cons]
    omega

theorem ceil_spec (n : Int) (u : Nat) (hu : 0 < u) :
    n ≤ -((-n) / (u : Int)) * (u : Int) ∧ -((-n) / (u : Int)) * (u : Int) < n + (u : Int) := by
  have hu' : (0 : Int) < (u : Int) := Int.ofNat_lt.2 hu
  have h1 := Int.emod_add_ediv (-n) (u : Int)
  have h2 := Int.emod_nonneg (-n) (ne_of_gt hu')
  have h3 := Int.emod_lt_of_pos (-n) hu'
  have e : -((-n) / (u : Int)) * (u : Int) = -((u : Int) * ((-n) / (u : Int))) := by ring
  rw [e]
  constructor <;> omega

theorem alnum_not_space (c : Char) (h : alnumClass c = true) : isSpace c = false := by
  have ha : ('a' ≤ c) = (97 ≤ c.toNat) := rfl
  have hz : (c ≤ 'z') = (c.toNat ≤ 122) := rfl
  have hA : ('A' ≤ c) = (65 ≤ c.toNat) := rfl
  have hZ : (c ≤ 'Z') = (c.toNat ≤ 90) := rfl
  have h0 : ('0' ≤ c) = (48 ≤ c.toNat) := rfl
  have h9 : (c ≤ '9') = (c.toNat ≤ 57) := rfl
  simp only [alnumClass, Bool.or_eq_true, Bool.and_eq_true, decide_eq_true_eq, Bool.decide_or,
    Bool.decide_and, ha, hz, hA, hZ, h0, h9] at h
  have hr : 48 ≤ c.toNat ∧ c.toNat ≤ 122 := by omega
  cases hs : isSpace c with
  | false => rfl
  | true =>
    exfalso
    simp only [isSpace, Bool.or_eq_true, Bool.and_eq_true, decide_eq_true_eq, Bool.decide_or,
      Bool.decide_and] at hs
    have e1 : ('\t' : Char).toNat = 9 := rfl
    have e2 : ('\n' : Char).toNat = 10 := rfl
    have e3 : ('\r' : Char).toNat = 13 := rfl
    have e4 : (' ' : Char).toNat = 32 := rfl
    rcases hs with hs | hs | hs | hs | hs | hs | hs | hs | hs | hs | hs | hs | hs | hs | hs
    · rw [hs] at hr; omega
    · rw [hs] at hr; omega
    · omega
    · omega
    · rw [hs] at hr; omega
    · rw [hs] at hr; omega
    · omega
    · omega
    · omega
    · omega
    · omega
    · omega
    · omega
    · omega
    · omega

/-- C9: the loop of rule 5 adds to `points` the sum, over exactly the items
whose trimmed description has a length (in bytes, as `len` counts) that is a
multiple of 3, of `int(math.Ceil(price * 0.2))`, each item rounded up on its
own; an item that does not take part leaves `points` as it is. Trimming
removes the white space before the first and after the last character that
is not white space and nothing else, so a description of spaces only has
trimmed length 0 and takes part, "ab", "ab " and "abcd" do not take part,
and " abc " and "a b" do. `Ceil` gives the least whole number not below its
argument. The items ("abc","3.00") and ("abcdef","6.00") contribute
1 + 2 = 3, and two items of price "1.00" contribute 1 + 1 where one item of
price "2.00" contributes 1. -/
theorem rule5_sums_item_bonuses (oor : F64 → Int) (items : List Item) (p : Int) :
    items.foldl (itemStep oor) (wrap64 p) =
      wrap64 (p + ((items.filter fun item =>
          decide (len (TrimSpace item.ShortDescription.data) % 3 = 0)).map fun item =>
        f64ToInt oor (F64.ceil (F64.mul (ParseFloat item.Price.data).1 fifth))).sum) ∧
    (∀ item : Item, (∀ c ∈ item.ShortDescription.data, isSpace c = true) →
      len (TrimSpace item.ShortDescription.data) = 0 ∧ qualifies item = true) ∧
    rule5 oor [⟨"abc", "3.00"⟩, ⟨"abcdef", "6.00"⟩] = 1 + 2 ∧
    rule5 oor [⟨"abc", "1.00"⟩, ⟨"abc", "1.00"⟩] = 1 + 1 ∧
    rule5 oor [⟨"abc", "2.00"⟩] = 1 ∧
    -- which items take part, and what an item does to `points`
    (∀ item : Item, qualifies item = true ↔
      len (TrimSpace item.ShortDescription.data) % 3 = 0) ∧
    (∀ (item : Item) (points : Int), qualifies item = false →
      itemStep oor points item = points) ∧
    (∀ (item : Item) (points : Int), qualifies item = true →
      itemStep oor points item =
        wrap64 (points +
          f64ToInt oor (F64.ceil (F64.mul (ParseFloat item.Price.data).1 fifth)))) ∧
    -- trimming and length
    (∀ ws1 core ws2 : List Char, (∀ c ∈ ws1, isSpace c = true) →
      (∀ c ∈ ws2, isSpace c = true) → (∀ c, core.head? = some c → isSpace c = false) →
      (∀ c, core.getLast? = some c → isSpace c = false) →
      TrimSpace (ws1 ++ core ++ ws2) = core) ∧
    (isSpace ' ' = true ∧ isSpace '\t' = true ∧ isSpace '\n' = true ∧ isSpace '\r' = true ∧
      isSpace (Char.ofNat 0xA0) = true ∧ isSpace (Char.ofNat 0x3000) = true ∧
      isSpace '.' = false ∧ isSpace '-' = false ∧ isSpace 'é' = false) ∧
    (∀ c : Char, alnumClass c = true → isSpace c = false) ∧
    (∀ s : List Char, (∀ c ∈ s, c.toNat < 128) → len s = s.length) ∧
    len "é".data = 2 ∧
    (qualifies ⟨"ab", "5.00"⟩ = false ∧ qualifies ⟨"ab ", "5.00"⟩ = false ∧
      qualifies ⟨"abcd", "5.00"⟩ = false ∧ qualifies ⟨"é", "5.00"⟩ = false ∧
      qualifies ⟨" abc ", "3.00"⟩ = true ∧ qualifies ⟨"a b", "6.00"⟩ = true ∧
      qualifies ⟨"éa", "5.00"⟩ = true ∧ qualifies ⟨"\t abcdef\n", "5.00"⟩ = true) ∧
    rule5 oor [⟨"ab", "5.00"⟩, ⟨" abc ", "3.00"⟩, ⟨"ab ", "5.00"⟩, ⟨"a b", "6.00"⟩,
      ⟨"abcd", "5.00"⟩] = 1 + 2 ∧
    -- rounding up
    (∀ n : Int, ∃ k : Int, F64.ceil (.fin n) = .fin (k * (unit : Int)) ∧
      n ≤ k * (unit : Int) ∧ k * (unit : Int) < n + (unit : Int)) ∧
    (f64ToInt oor (itemBonus ⟨"abc", "5.00"⟩) = 1 ∧ f64ToInt oor (itemBonus ⟨"abc", "5.01"⟩) = 2 ∧
      f64ToInt oor (itemBonus ⟨"abc", "0.00"⟩) = 0 ∧
      f64ToInt oor (itemBonus ⟨"abc", "4.99"⟩) = 1) := by
  have hq : (fun item : Item =>
      decide (len (TrimSpace item.ShortDescription.data) % 3 = 0)) = qualifies := by
    funext item
    unfold qualifies
    congr 1
    apply propext
    have e : (((len (TrimSpace item.ShortDescription.data) : Nat) : Int).tmod 3) =
        ((len (TrimSpace item.ShortDescription.data) % 3 : Nat) : Int) :=
      (Int.ofNat_tmod _ 3).symm
    rw [e]
    omega
  have hbonus : ∀ item : Item, (f64ToIntDefined (itemBonus item)).isSome = true →
      f64ToInt oor (itemBonus item) = f64ToInt (fun _ => 0) (itemBonus item) :=
    fun item h => f64ToInt_congr oor (fun _ => 0) _ h
  refine ⟨?_, ?_, (rule5_congr oor (fun _ => 0) _ (by decide!)).trans (by decide!),
    (rule5_congr oor (fun _ => 0) _ (by decide!)).trans (by decide!),
    (rule5_congr oor (fun _ => 0) _ (by decide!)).trans (by decide!),
    ?_, ?_, ?_, trimSpace_core,
    ⟨by decide, by decide, by decide, by decide, by decide, by decide, by decide, by decide,
      by decide⟩,
    alnum_not_space, len_ascii, by decide,
    ⟨by decide, by decide, by decide, by decide, by decide, by decide, by decide, by decide⟩,
    (rule5_congr oor (fun _ => 0) _ (by decide!)).trans (by decide!), ?_,
    ⟨(hbonus _ (by decide!)).trans (by decide!), (hbonus _ (by decide!)).trans (by decide!),
      (hbonus _ (by decide!)).trans (by decide!), (hbonus _ (by decide!)).trans (by decide!)⟩⟩
  · rw [(foldl_itemStep oor items p).2, hq]
    rfl
  · intro item h
    have ht := trimSpace_of_spaces _ h
    refine ⟨by rw [ht]; rfl, ?_⟩
    unfold qualifies
    rw [ht]
    rfl
  · intro item
    rw [← hq]
    simp only [decide_eq_true_eq]
  · intro item points hf
    rw [itemStep_eq, hf]
    rfl
  · intro item points ht
    rw [itemStep_eq, ht]
    rfl
  · intro n
    exact ⟨-((-n) / (unit : Int)), rfl, ceil_spec n unit unit_pos⟩

end ReceiptProcessor
